import Mathlib

/-!
# slackportal: a shallow embedding of `src/index.js` and `src/config.js`

Conventions of the embedding.

* A JavaScript string is a `List Char` (`Str`).  The two regular expressions of the
  program only inspect ASCII characters, and `String.prototype.replace` with a string
  pattern is a substring search, so nothing depends on the UTF-16 encoding.
* A Slack timestamp (`"1355517523.000005"`, or the number `parseFloat` makes of it) is
  the rational number it denotes; `START_TS_DIFF`, `END_TS_DIFF`, `TS_DIFF_TOLERANCE`
  are the rationals `3`, `6`, `2` of `config.js`.
* A promise that is never resolved (the program never rejects or times out) is `none`.
* `getUser` consults the cache and then the backend.  The write into the cache is not
  threaded: with a backend that answers the same id with the same user it changes no
  value that a handler chain computes, only how many `users.info` requests are sent,
  and those requests are not part of the recorded trace.
* The trace of a handler records every other request to a backend (`channels.history`,
  `reactions.get`, `chat.update`, `chat.delete`, `chat.postMessage`) together with the
  `log.warn` and `log.error` lines, in program order.  `log.info` lines are not recorded.
-/

namespace SlackPortal

abbrev Str := List Char

/-! ## config.js -/

def START_TS_DIFF : ℚ := 3

def END_TS_DIFF : ℚ := 6

def TS_DIFF_TOLERANCE : ℚ := 2

/-! ## index.js: constants -/

def EDITED_FALLBACK_TAG : Str := "slackportal_edited".toList

def EMOJI_FALLBACK_TAG : Str := "slackportal_emoji".toList

/-! ## Data -/

structure Profile where
  display_name : Str
  real_name : Str
  image_48 : Str
deriving DecidableEq, Repr

structure User where
  id : Str
  name : Str
  profile : Profile
deriving DecidableEq, Repr

structure Attachment where
  fallback : Option Str
  text : Option Str
  footer : Option Str
  ts : Option ℚ
  /-- Every other field of a user attachment (title, image, colour, ...), kept as is. -/
  rest : Str
deriving DecidableEq, Repr

structure Reaction where
  name : Str
  count : Nat
  users : List Str
deriving DecidableEq, Repr

structure Message where
  ts : ℚ
  text : Str
  /-- The value `none` is a message without an `attachments` field. -/
  attachments : Option (List Attachment)
deriving DecidableEq, Repr

/-- One Slack client (`WebClient` with its `cached_users`), as far as the program uses it. -/
structure Web where
  cached_users : Str → Option User
  /-- The backend's `users.info`; `none` when the request fails. -/
  users_info : Str → Option User
  /-- The messages `channels.history` answers for a channel, `oldest` and `latest`,
  in the order of the response. -/
  channels_history : Str → ℚ → ℚ → List Message
  /-- The field `message.reactions` of the response of `reactions.get`. -/
  reactions_get : Str → ℚ → Option (List Reaction)

/-! ## Strings: the two regular expressions and `String.prototype.replace` -/

/-- The character class `[A-Z0-9]`. -/
def isIdChar (c : Char) : Bool :=
  (decide ('A' ≤ c) && decide (c ≤ 'Z')) || (decide ('0' ≤ c) && decide (c ≤ '9'))

/-- One attempt to match `<@([A-Z0-9]{minLen,})>` at the head of `s`: `result[0]` and
`result[1]`.  The class does not contain `>`, so only the longest run of class
characters can be followed by `>` and backtracking finds nothing else.
`minLen = 1` is `MENTION_REGEX` (`+`), `minLen = 0` the pattern of `removeMentionTag` (`*`). -/
def matchHere (minLen : Nat) (s : Str) : Option (Str × Str) :=
  match s with
  | a :: b :: r =>
    if a = '<' ∧ b = '@' then
      match r.dropWhile isIdChar with
      | c :: _ =>
        if c = '>' ∧ minLen ≤ (r.takeWhile isIdChar).length then
          some ('<' :: '@' :: (r.takeWhile isIdChar ++ ['>']), r.takeWhile isIdChar)
        else none
      | [] => none
    else none
  | _ => none

/-- All matches of the global regular expression, left to right, each search starting
where the previous match ended (`lastIndex`).  `skip` counts the characters of the
previous match that are still to be passed. -/
def matchAllFrom (minLen : Nat) : Nat → Str → List (Str × Str)
  | _, [] => []
  | skip + 1, _ :: cs => matchAllFrom minLen skip cs
  | 0, c :: cs =>
    match matchHere minLen (c :: cs) with
    | some m => m :: matchAllFrom minLen (m.1.length - 1) cs
    | none => matchAllFrom minLen 0 cs

/-- The successive results of `pattern.exec(text)` until it answers `null`. -/
def matchAll (minLen : Nat) (text : Str) : List (Str × Str) :=
  matchAllFrom minLen 0 text

/-- The first `exec` of a fresh regular expression object. -/
def regexExec (minLen : Nat) (text : Str) : Option (Str × Str) :=
  (matchAll minLen text).head?

def startsWith (pat : Str) (s : Str) : Bool :=
  pat == s.take pat.length

/-- The text before and the text after the first occurrence of `pat` in `s`. -/
def splitOnFirst (pat : Str) : Str → Option (Str × Str)
  | [] => if pat = [] then some ([], []) else none
  | c :: cs =>
    if startsWith pat (c :: cs) then some ([], (c :: cs).drop pat.length)
    else (splitOnFirst pat cs).map (fun p => (c :: p.1, p.2))

/-- The abstract operation `GetSubstitution` for a string pattern (no captures):
`$$`, `$&`, the dollar followed by a backtick or by an apostrophe are expanded,
every other character stands for itself. -/
def getSubstitution (matched before after : Str) : Str → Str
  | [] => []
  | [c] => [c]
  | c :: d :: r =>
    if c = '$' then
      if d = '$' then '$' :: getSubstitution matched before after r
      else if d = '&' then matched ++ getSubstitution matched before after r
      else if d = Char.ofNat 96 then before ++ getSubstitution matched before after r
      else if d = Char.ofNat 39 then after ++ getSubstitution matched before after r
      else c :: getSubstitution matched before after (d :: r)
    else c :: getSubstitution matched before after (d :: r)

/-- The call `s.replace(pat, rep)` with a string pattern: the first occurrence only. -/
def jsReplace (s pat rep : Str) : Str :=
  match splitOnFirst pat s with
  | none => s
  | some (before, after) => before ++ getSubstitution pat before after rep ++ after

/-- `Promise.all`: resolved when every promise is. -/
def promiseAll {α : Type} : List (Option α) → Option (List α)
  | [] => some []
  | none :: _ => none
  | some a :: ps =>
    match promiseAll ps with
    | some as => some (a :: as)
    | none => none

/-! ## index.js: identities and the mention normalizer -/

def getUser (web : Web) (user_id : Str) : Option User :=
  match web.cached_users user_id with
  | some user => some user
  | none => web.users_info user_id

/-- The expression `user.profile.display_name || user.profile.real_name || user.name`;
an absent field is the empty string. -/
def getNameFromUser (user : User) : Str :=
  if user.profile.display_name ≠ [] then user.profile.display_name
  else if user.profile.real_name ≠ [] then user.profile.real_name
  else user.name

def preprocessUserMentions (web : Web) (text : Str) : Option Str :=
  match (matchAll 1 text).map Prod.fst with
  | [] => some text
  | raw_ids =>
    let get_users := raw_ids.map (fun raw_id =>
      match regexExec 1 raw_id with
      | some result => getUser web result.2
      | none => none)
    match promiseAll get_users with
    | some users =>
      some (users.foldl (fun text user => jsReplace text user.id (getNameFromUser user)) text)
    | none => none

def removeMentionTag (text : Str) : Str :=
  (matchAll 0 text).foldl (fun new_text result => jsReplace new_text result.1 result.2) text

/-- The spec's `normalize`: `preprocessUserMentions` followed by `removeMentionTag`. -/
def normalize (web : Web) (text : Str) : Option Str :=
  (preprocessUserMentions web text).map removeMentionTag

/-! ## index.js: the reaction aggregator -/

/-- `Array.prototype.join`. -/
def arrayJoin (sep : Str) : List Str → Str
  | [] => []
  | [a] => a
  | a :: b :: r => a ++ sep ++ arrayJoin sep (b :: r)

/-- A value stored in the object `users` of `generateEmojiAttachment`: the promise that
`getUser` returned (with the user it resolves to, if it ever does), or a resolved user. -/
inductive Slot where
  | promise (outcome : Option User)
  | user (u : User)
deriving DecidableEq, Repr

/-- The assignment `obj[key] = value` on an object whose keys are kept in insertion order
(a user id is neither an array index nor the name of a property of `Object.prototype`). -/
def objSet {β : Type} (obj : List (Str × β)) (key : Str) (value : β) : List (Str × β) :=
  match obj with
  | [] => [(key, value)]
  | (k, v) :: r => if k = key then (k, value) :: r else (k, v) :: objSet r key value

/-- The read `obj[key]`; `none` is `undefined`. -/
def objGet {β : Type} (obj : List (Str × β)) (key : Str) : Option β :=
  match obj with
  | [] => none
  | (k, v) :: r => if k = key then some v else objGet r key

/-- The first pair of loops: one `getUser` promise for each distinct reactor id. -/
def collectUsers (local_web : Web) (reactions : List Reaction) : List (Str × Slot) :=
  reactions.foldl (fun users reaction =>
    reaction.users.foldl (fun users user_id =>
      match objGet users user_id with
      | some _ => users
      | none => objSet users user_id (Slot.promise (getUser local_web user_id))) users) []

/-- What `Promise.all` waits for in a slot. -/
def slotOutcome : Slot → Option User
  | Slot.promise outcome => outcome
  | Slot.user u => some u

/-- The inner loop `names.push(getNameFromUser(users[user_id]))`; reading `.profile` of
a slot that still holds a promise, or of a missing key, throws. -/
def reactorNames (users : List (Str × Slot)) : List Str → Option (List Str)
  | [] => some []
  | user_id :: r =>
    match objGet users user_id with
    | some (Slot.user u) =>
      match reactorNames users r with
      | some names => some (getNameFromUser u :: names)
      | none => none
    | _ => none

/-- The argument is `res.message.reactions`; `none` when the field is absent. -/
def generateEmojiAttachment (local_web : Web) (reactions : Option (List Reaction)) :
    Option Attachment :=
  let users := collectUsers local_web (reactions.getD [])
  let users_array := users.map (fun kv => slotOutcome kv.2)
  match promiseAll users_array with
  | none => none
  | some resolved_user_array =>
    let users := resolved_user_array.foldl (fun users user => objSet users user.id (Slot.user user)) users
    let lines := (reactions.getD []).foldl (fun acc reaction =>
      match acc, reactorNames users reaction.users with
      | some (emoji_summary, emoji_detail), some names =>
        some (emoji_summary ++ [[':'] ++ reaction.name ++ ": ".toList ++ Nat.toDigits 10 reaction.count],
              emoji_detail ++ [reaction.name ++ ": ".toList ++ arrayJoin ", ".toList names])
      | _, _ => none) (some (([] : List Str), ([] : List Str)))
    match lines with
    | none => none
    | some (emoji_summary, emoji_detail) =>
      some { fallback := some EMOJI_FALLBACK_TAG
             text := some (arrayJoin " ".toList emoji_summary)
             footer := some (arrayJoin " | ".toList emoji_detail)
             ts := none
             rest := [] }

/-! ## index.js: the message correlator -/

/-- The argument `text` of `searchMessage`. -/
inductive Expected where
  | null
  | undefined
  | str (s : Str)
deriving DecidableEq, Repr

inductive Log where
  | warn_start_ts_too_small (start_diff : ℚ)
  | warn_end_ts_too_small (end_diff : ℚ)
  | error_cannot_find
  | error_window (start_ts end_ts : ℚ) (text : Expected)
  | error_possible_remote_update
  | error_consider_modifying
  | warn_unknown_subtype (subtype : Str)
deriving DecidableEq, Repr

/-- The two clients a portal talks to. -/
inductive Side where
  | local_web
  | remote_web
deriving DecidableEq, Repr

inductive Request where
  | channels_history (channel : Str) (oldest latest : ℚ)
  | reactions_get (channel : Str) (timestamp : ℚ)
  | chat_update (channel : Str) (text : Option Str) (ts : ℚ) (attachments : List Attachment)
  | chat_delete (channel : Str) (ts : ℚ)
  | chat_postMessage (channel : Str) (text : Str) (icon_url username : Str) (thread_ts : Option ℚ)
deriving DecidableEq, Repr

inductive Effect where
  | request (web : Side) (r : Request)
  | log (l : Log)
  /-- An uncaught `TypeError` (a property of `undefined` was read). -/
  | typeError
deriving DecidableEq, Repr

/-- The loop `for (message of messages)` of `searchMessage` with what follows it: the
message the promise is resolved with, and the warnings and errors logged. -/
def searchLoop (text : Expected) (start_ts end_ts : ℚ) : List Message → Option Message × List Log
  | [] => (none, [Log.error_cannot_find, Log.error_window start_ts end_ts text,
                  Log.error_possible_remote_update, Log.error_consider_modifying])
  | message :: rest =>
    let message := { message with text := removeMentionTag message.text }
    if text = Expected.null ∨ Expected.str message.text = text then
      let ts := message.ts
      let start_diff := |ts - start_ts|
      let end_diff := |ts - end_ts|
      (some message,
        (if start_ts ≠ end_ts ∧ start_diff < TS_DIFF_TOLERANCE then
          [Log.warn_start_ts_too_small start_diff] else []) ++
        (if start_ts ≠ end_ts ∧ end_diff < TS_DIFF_TOLERANCE then
          [Log.warn_end_ts_too_small end_diff] else []))
    else searchLoop text start_ts end_ts rest

/-- The promises `raw_messages`: each message of the list with its text preprocessed and
stripped. -/
def rawMessages (web : Web) (messages : List Message) : List (Option Message) :=
  messages.map (fun message =>
    (preprocessUserMentions web message.text).map (fun preprocessed_text =>
      { message with text := removeMentionTag preprocessed_text }))

/-- The argument `side` names the client `web` in the trace.  `Array.prototype.reverse`
reverses in place and returns the same array: the call inside the `log.info` argument
(line 141) reverses `res.messages`, the call of line 143 reverses it again. -/
def searchMessage (side : Side) (web : Web) (channel_id : Str) (text : Expected)
    (start_ts end_ts : ℚ) : Option Message × List Effect :=
  let history := Effect.request side (Request.channels_history channel_id start_ts end_ts)
  let res_messages := web.channels_history channel_id start_ts end_ts
  let res_messages := res_messages.reverse
  let res_messages := res_messages.reverse
  match promiseAll (rawMessages web res_messages) with
  | none => (none, [history])
  | some messages =>
    let found := searchLoop text start_ts end_ts messages
    (found.1, history :: found.2.map Effect.log)

/-! ## index.js: the event dispatcher (`createPortal`) -/

/-- The arguments of `createPortal`. -/
structure Portal where
  local_web : Web
  remote_web : Web
  local_channel_id : Str
  remote_channel_id : Str

/-- A `reaction_added` or `reaction_removed` event: `event.item.channel`, `event.item.ts`. -/
structure ReactionEvent where
  item_channel : Str
  item_ts : ℚ
deriving DecidableEq, Repr

structure PreviousMessage where
  subtype : Option Str
  text : Option Str
  ts : ℚ
deriving DecidableEq, Repr

/-- The field `event.message` of a `message_changed` event. -/
structure ChangedMessage where
  text : Option Str
deriving DecidableEq, Repr

/-- A `message` event; the value `none` is an absent (`undefined`) field. -/
structure MessageEvent where
  channel : Str
  subtype : Option Str
  previous_message : Option PreviousMessage
  message : Option ChangedMessage
  ts : ℚ
  thread_ts : Option ℚ
  text : Str
  user : Str
deriving DecidableEq, Repr

/-- Lines 192-201: the indexed loop that overwrites every attachment carrying the emoji
tag, and the `push` when there was none. -/
def upsertEmoji (emoji_attachment : Attachment) (attachments : List Attachment) :
    List Attachment :=
  let looped := (List.range attachments.length).foldl
    (fun (state : List Attachment × Bool) i =>
      match state.1.get? i with
      | some a =>
        if a.fallback = some EMOJI_FALLBACK_TAG then (state.1.set i emoji_attachment, true)
        else state
      | none => state)
    (attachments, false)
  if looped.2 then looped.1 else looped.1 ++ [emoji_attachment]

/-- Lines 236-245: the loop that stamps every attachment carrying the edit tag with the
timestamp of the event, and the `unshift` when there was none. -/
def upsertEdited (event_ts : ℚ) (attachments : List Attachment) : List Attachment :=
  let looped := attachments.foldl
    (fun (state : List Attachment × Bool) attachment =>
      if attachment.fallback = some EDITED_FALLBACK_TAG then
        (state.1 ++ [{ attachment with ts := some event_ts }], true)
      else (state.1 ++ [attachment], state.2))
    ([], false)
  if looped.2 then looped.1
  else { fallback := some EDITED_FALLBACK_TAG, text := some [], footer := some "(edited)".toList,
         ts := some event_ts, rest := [] } :: looped.1

def reactionHandler (p : Portal) (event : ReactionEvent) : List Effect :=
  if event.item_channel ≠ p.local_channel_id then []
  else
    let ts := event.item_ts
    let found := searchMessage Side.local_web p.local_web p.local_channel_id Expected.null ts ts
    match found.1 with
    | none => found.2
    | some message =>
      let get := Effect.request Side.local_web (Request.reactions_get p.local_channel_id message.ts)
      match generateEmojiAttachment p.local_web
          (p.local_web.reactions_get p.local_channel_id message.ts) with
      | none => found.2 ++ [get]
      | some emoji_attachment =>
        let start_ts := ts - START_TS_DIFF
        let end_ts := ts + END_TS_DIFF
        let remote := searchMessage Side.remote_web p.remote_web p.remote_channel_id
          (Expected.str message.text) start_ts end_ts
        match remote.1 with
        | none => found.2 ++ [get] ++ remote.2
        | some remote_message =>
          found.2 ++ [get] ++ remote.2 ++
            [Effect.request Side.remote_web (Request.chat_update p.remote_channel_id
              (some remote_message.text) remote_message.ts
              (upsertEmoji emoji_attachment (remote_message.attachments.getD [])))]

/-- The value of `event.previous_message.text` as the argument `text` of `searchMessage`. -/
def expectedOf : Option Str → Expected
  | some s => Expected.str s
  | none => Expected.undefined

/-- The branch `case 'message_changed': case 'message_deleted':` (lines 221-259). -/
def onChangedOrDeleted (p : Portal) (event : MessageEvent) (subtype : Str) : List Effect :=
  match event.previous_message with
  | none => [Effect.typeError]
  | some previous_message =>
    if previous_message.subtype = some "bot_message".toList then []
    else if previous_message.text =
        (match event.message with
         | some message => message.text
         | none => none) then []
    else
      let start_ts := previous_message.ts - START_TS_DIFF
      let end_ts := start_ts + END_TS_DIFF
      let prev_text := expectedOf previous_message.text
      if subtype = "message_deleted".toList then
        let found := searchMessage Side.remote_web p.remote_web p.remote_channel_id prev_text
          start_ts end_ts
        match found.1 with
        | none => found.2
        | some message =>
          found.2 ++ [Effect.request Side.remote_web
            (Request.chat_delete p.remote_channel_id message.ts)]
      else
        match event.message with
        | none => [Effect.typeError]
        | some changed =>
          let text := changed.text
          let found := searchMessage Side.remote_web p.remote_web p.remote_channel_id prev_text
            start_ts end_ts
          match found.1 with
          | none => found.2
          | some message =>
            found.2 ++ [Effect.request Side.remote_web
              (Request.chat_update p.remote_channel_id text message.ts
                (upsertEdited event.ts (message.attachments.getD [])))]

/-- The branch `case undefined:` (lines 264-306): a normal message or a thread reply. -/
def onPlainMessage (p : Portal) (event : MessageEvent) : List Effect :=
  match event.thread_ts with
  | none =>
    match getUser p.local_web event.user, preprocessUserMentions p.local_web event.text with
    | some user, some text =>
      [Effect.request Side.remote_web (Request.chat_postMessage p.remote_channel_id text
        user.profile.image_48 (getNameFromUser user) none)]
    | _, _ => []
  | some ts =>
    let found := searchMessage Side.local_web p.local_web p.local_channel_id Expected.null ts ts
    match getUser p.local_web event.user, found.1 with
    | some user, some message =>
      let start_ts := message.ts - START_TS_DIFF
      let end_ts := start_ts + END_TS_DIFF
      let remote := searchMessage Side.remote_web p.remote_web p.remote_channel_id
        (Expected.str message.text) start_ts end_ts
      match remote.1 with
      | none => found.2 ++ remote.2
      | some thread_message =>
        found.2 ++ remote.2 ++
          [Effect.request Side.remote_web (Request.chat_postMessage p.remote_channel_id event.text
            user.profile.image_48 (getNameFromUser user) (some thread_message.ts))]
    | _, _ => found.2

/-- The listener of `'message'` (lines 215-314). -/
def onMessage (p : Portal) (event : MessageEvent) : List Effect :=
  if event.channel ≠ p.local_channel_id then []
  else
    match event.subtype with
    | some subtype =>
      if subtype = "message_changed".toList ∨ subtype = "message_deleted".toList then
        onChangedOrDeleted p event subtype
      else if subtype = "message_replied".toList then []
      else if subtype = "bot_message".toList then []
      else [Effect.log (Log.warn_unknown_subtype subtype)]
    | none => onPlainMessage p event

/-! ## What a trace contains -/

/-- A request that changes the channel: `chat.postMessage`, `chat.update`, `chat.delete`. -/
def Request.isMutation : Request → Bool
  | Request.chat_update _ _ _ _ => true
  | Request.chat_delete _ _ => true
  | Request.chat_postMessage _ _ _ _ _ => true
  | _ => false

def Effect.isMutation : Effect → Bool
  | Effect.request _ r => r.isMutation
  | _ => false

/-- A `channels.history` request, the one request of a correlation search. -/
def Effect.isSearchOn (side : Side) : Effect → Bool
  | Effect.request s (Request.channels_history _ _ _) => decide (s = side)
  | _ => false

def Effect.isWarning : Effect → Bool
  | Effect.log (Log.warn_start_ts_too_small _) => true
  | Effect.log (Log.warn_end_ts_too_small _) => true
  | _ => false

/-- The warnings `searchMessage` logs when it resolves with a message of timestamp `ts`
(lines 156-163). -/
def warningsFor (start_ts end_ts ts : ℚ) : List Log :=
  (if start_ts ≠ end_ts ∧ |ts - start_ts| < TS_DIFF_TOLERANCE then
    [Log.warn_start_ts_too_small |ts - start_ts|] else []) ++
  (if start_ts ≠ end_ts ∧ |ts - end_ts| < TS_DIFF_TOLERANCE then
    [Log.warn_end_ts_too_small |ts - end_ts|] else [])

/-! ## Predicates on searches and traces -/

/-- The text `searchMessage` compares with the expected text: the text of the history
message after `preprocessUserMentions`, `removeMentionTag` (line 146) and
`removeMentionTag` again (line 153). -/
def searchText (web : Web) (text : Str) : Option Str :=
  (normalize web text).map removeMentionTag

/-- No message of the history response for the window has the text `s`. -/
def NoMatch (web : Web) (channel_id : Str) (s : Str) (start_ts end_ts : ℚ) : Prop :=
  ∀ m ∈ web.channels_history channel_id start_ts end_ts, searchText web m.text ≠ some s

/-- A trace without mutation and with at most one search on the opposite side. -/
def Quiet (trace : List Effect) : Prop :=
  (∀ e ∈ trace, e.isMutation = false) ∧ trace.countP (Effect.isSearchOn Side.remote_web) ≤ 1

/-! ## Attachments and reaction summaries, as the claims describe them -/

/-- The test `attachment.fallback === tag`. -/
def hasTag (tag : Str) (a : Attachment) : Bool := decide (a.fallback = some tag)

/-- The attachment the edit handler adds when none carries the edit tag (line 245). -/
def editMarker (event_ts : ℚ) : Attachment :=
  { fallback := some EDITED_FALLBACK_TAG, text := some [], footer := some "(edited)".toList,
    ts := some event_ts, rest := [] }

/-- The display name of the user an id resolves to (empty when it does not resolve). -/
def displayName (web : Web) (user_id : Str) : Str :=
  match getUser web user_id with
  | some user => getNameFromUser user
  | none => []

/-- The summary line `:name: count` of a reaction (line 96). -/
def summaryEntry (reaction : Reaction) : Str :=
  [':'] ++ reaction.name ++ ": ".toList ++ Nat.toDigits 10 reaction.count

/-- The detail line `name: n1, n2, ...` of a reaction (lines 97-100). -/
def detailEntry (web : Web) (reaction : Reaction) : Str :=
  reaction.name ++ ": ".toList ++ List.intercalate ", ".toList (reaction.users.map (displayName web))

/-- Every slot holds the promise of its key, and every listed id has a slot. -/
def Collected (web : Web) (ids : List Str) (users : List (Str × Slot)) : Prop :=
  (∀ kv ∈ users, kv.1 ∈ ids ∧ kv.2 = Slot.promise (getUser web kv.1)) ∧
  (∀ user_id ∈ ids, ∃ v, objGet users user_id = some v)

/-- The slot of `k` holds the resolved user of `k`. -/
def Resolved (web : Web) (users : List (Str × Slot)) (k : Str) : Prop :=
  ∃ u, objGet users k = some (Slot.user u) ∧ getUser web k = some u

/-! ## Segmented texts

The texts on which the normalizer is characterised: a sequence of characters other than
`<`, of bracket groups `<body>` whose body holds neither `<` nor `>`, and of mention tokens
`<@id>` with `id` in `[A-Z0-9]*`.  Slack escapes `<`, `>` and `&` in what users type, so the
texts it delivers have this shape: brackets delimit control sequences and do not nest. -/

/-- A piece of a message text: a character, a bracket group that is no mention token, or a
mention token. -/
inductive Seg where
  | plain (c : Char)
  | group (body : Str)
  | mention (id : Str)
deriving DecidableEq, Repr

/-- The characters of a segment. -/
def Seg.render : Seg → Str
  | Seg.plain c => [c]
  | Seg.group body => '<' :: (body ++ ['>'])
  | Seg.mention id => '<' :: '@' :: (id ++ ['>'])

/-- The text a sequence of segments stands for. -/
def render (segs : List Seg) : Str :=
  (segs.map Seg.render).flatten

/-- The body of a group that the pattern of `removeMentionTag` matches: `@` and class characters. -/
def isMentionBody : Str → Bool
  | [] => false
  | c :: r => c == '@' && r.all isIdChar

/-- A character is not `<`; the body of a group holds no bracket and is not `@` followed by
class characters only; the id of a mention token holds class characters only. -/
def Seg.wf : Seg → Bool
  | Seg.plain c => c != '<'
  | Seg.group body => body.all (fun c => c != '<' && c != '>') && !(isMentionBody body)
  | Seg.mention id => id.all isIdChar

/-- The matches of the pattern with at least `minLen` class characters in a segmented text. -/
def tokens (minLen : Nat) : List Seg → List (Str × Str)
  | [] => []
  | Seg.mention id :: r =>
    if minLen ≤ id.length then ('<' :: '@' :: (id ++ ['>']), id) :: tokens minLen r
    else tokens minLen r
  | Seg.plain _ :: r => tokens minLen r
  | Seg.group _ :: r => tokens minLen r

/-- Whether `pat` occurs in `s` (as a substring). -/
def occursIn (pat : Str) : Str → Bool
  | [] => pat == []
  | c :: cs => startsWith pat (c :: cs) || occursIn pat cs

/-- A segment after `removeMentionTag`: a token loses its delimiters. -/
def Seg.strip : Seg → Str
  | Seg.plain c => [c]
  | Seg.group body => '<' :: (body ++ ['>'])
  | Seg.mention id => id

/-- The text with every mention token stripped of its delimiters. -/
def stripRender (segs : List Seg) : Str :=
  (segs.map Seg.strip).flatten

/-- The characters of a stripped token, as plain segments. -/
def Seg.flat : Seg → List Seg
  | Seg.plain c => [Seg.plain c]
  | Seg.group body => [Seg.group body]
  | Seg.mention id => id.map Seg.plain

/-- The stripped text, segmented again. -/
def flatSegs (segs : List Seg) : List Seg :=
  (segs.map Seg.flat).flatten

/-- A display name that can stand in a bracket group and in a replacement string. -/
def cleanName (name : Str) : Bool :=
  name.all (fun c => c != '<' && c != '>' && c != '$')

/-- A segment after `preprocessUserMentions`: the id of a mention token becomes the display name. -/
def Seg.subst (web : Web) : Seg → Seg
  | Seg.plain c => Seg.plain c
  | Seg.group body => Seg.group body
  | Seg.mention id =>
    if id = [] then Seg.mention []
    else if (displayName web id).all isIdChar then Seg.mention (displayName web id)
    else Seg.group ('@' :: displayName web id)

/-- No mentioned id occurs in the text that precedes its own token (`done` at first, then the
text as substituted so far). -/
def noEarlierId (web : Web) : Str → List Seg → Bool
  | _, [] => true
  | done, Seg.plain c :: r => noEarlierId web (done ++ [c]) r
  | done, Seg.group body :: r => noEarlierId web (done ++ '<' :: (body ++ ['>'])) r
  | done, Seg.mention id :: r =>
    (id == [] || !(occursIn id done)) &&
      noEarlierId web (done ++ (Seg.subst web (Seg.mention id)).render) r

/-- Every mentioned id resolves, to a user that carries this id and has a clean display name. -/
def Resolves (web : Web) (segs : List Seg) : Prop :=
  ∀ id, Seg.mention id ∈ segs → id ≠ [] →
    ∃ u, getUser web id = some u ∧ u.id = id ∧ cleanName (getNameFromUser u) = true

/-- A segment after `normalize`. -/
def Seg.norm (web : Web) : Seg → Str
  | Seg.plain c => [c]
  | Seg.group body => '<' :: (body ++ ['>'])
  | Seg.mention id =>
    if id = [] then []
    else if (displayName web id).all isIdChar then displayName web id
    else '<' :: '@' :: (displayName web id ++ ['>'])

/-- The normalized text. -/
def normRender (web : Web) (segs : List Seg) : Str :=
  (segs.map (Seg.norm web)).flatten

/-! ## Concrete inputs -/

def exAlice : User :=
  { id := "U123".toList, name := "alice".toList,
    profile := { display_name := "Alice".toList, real_name := "Alice L".toList,
                 image_48 := "img".toList } }

/-- A workspace that knows `U123`, whose channel holds one message `root` at `1000`. -/
def exLocalWeb : Web :=
  { cached_users := fun _ => none
    users_info := fun user_id => if user_id = "U123".toList then some exAlice else none
    channels_history := fun _ _ _ => [{ ts := 1000, text := "root".toList, attachments := none }]
    reactions_get := fun _ _ =>
      some [{ name := "smile".toList, count := 1, users := ["U123".toList] }] }

/-- A workspace whose channel holds two messages `root`, at `1002` and at `1001`, answered
newest first. -/
def exRemoteWeb : Web :=
  { cached_users := fun _ => none
    users_info := fun _ => none
    channels_history := fun _ _ _ =>
      [{ ts := 1002, text := "root".toList, attachments := none },
       { ts := 1001, text := "root".toList, attachments := none }]
    reactions_get := fun _ _ => none }

def exPortal : Portal :=
  { local_web := exLocalWeb, remote_web := exRemoteWeb,
    local_channel_id := "L".toList, remote_channel_id := "R".toList }

def exBotEvent : MessageEvent :=
  { channel := "L".toList, subtype := some "bot_message".toList, previous_message := none,
    message := none, ts := 1005, thread_ts := none, text := "hi".toList, user := "U123".toList }

/-- A `message_changed` event that changes attachments only. -/
def exAttachmentEdit : MessageEvent :=
  { channel := "L".toList, subtype := some "message_changed".toList,
    previous_message := some { subtype := none, text := some "root".toList, ts := 1000 },
    message := some { text := some "root".toList },
    ts := 1005, thread_ts := none, text := [], user := "U123".toList }

/-- A reply in the thread whose root is the message at `1000`. -/
def exThreadReply : MessageEvent :=
  { channel := "L".toList, subtype := none, previous_message := none, message := none,
    ts := 1005, thread_ts := some 1000, text := "reply".toList, user := "U123".toList }

/-- A `message_changed` event whose previous text `gone` no remote message carries. -/
def exMissedEdit : MessageEvent :=
  { channel := "L".toList, subtype := some "message_changed".toList,
    previous_message := some { subtype := none, text := some "gone".toList, ts := 1000 },
    message := some { text := some "new".toList },
    ts := 1005, thread_ts := none, text := [], user := "U123".toList }

/-- The summary of the reactions `exLocalWeb` answers. -/
def exSummary : Attachment :=
  { fallback := some EMOJI_FALLBACK_TAG, text := some ":smile: 1".toList,
    footer := some "smile: Alice".toList, ts := none, rest := [] }

/-- A user attachment followed by an earlier emoji summary. -/
def exAttachments : List Attachment :=
  [{ fallback := none, text := some "picture".toList, footer := none, ts := none, rest := "image_url".toList },
   { fallback := some EMOJI_FALLBACK_TAG, text := some ":cry: 1".toList,
     footer := some "cry: Alice".toList, ts := none, rest := [] }]

def exReactions : List Reaction :=
  [{ name := "smile".toList, count := 2, users := ["U123".toList, "U123".toList] },
   { name := "tada".toList, count := 1, users := ["U123".toList] }]

/-- A user whose display name holds the replacement pattern `$&`. -/
def exDollar : User :=
  { id := "U9".toList, name := "dollar".toList,
    profile := { display_name := "$&!".toList, real_name := [], image_48 := [] } }

/-- A workspace that knows `U9`. -/
def exDollarWeb : Web :=
  { cached_users := fun _ => none
    users_info := fun user_id => if user_id = "U9".toList then some exDollar else none
    channels_history := fun _ _ _ => []
    reactions_get := fun _ _ => none }

/-- The text `hello <@U123>`. -/
def exHello : List Seg :=
  [Seg.plain 'h', Seg.plain 'e', Seg.plain 'l', Seg.plain 'l', Seg.plain 'o', Seg.plain ' ',
   Seg.mention "U123".toList]

/-! ## The scan of a history response, a delayed copy, and the bracket structure of texts -/

/-- The test of line 154 on a message of the history response. -/
def matchesText (web : Web) (text : Expected) (x : Message) : Prop :=
  text = Expected.null ∨ (searchText web x.text).map Expected.str = some text

/-- A message of the history response as `raw_messages` resolves it (lines 143-148). -/
def normMsg (web : Web) (x : Message) : Message :=
  { x with text := (normalize web x.text).getD [] }

/-- The mirrored copy of `root`, forwarded four seconds after the root. -/
def exCopy : Message := { ts := 1004, text := "root".toList, attachments := none }

/-- A workspace whose channel holds the mirrored copy of `root`, forwarded at `1004`; its
history answers the messages of the window asked for. -/
def exDelayedRemoteWeb : Web :=
  { cached_users := fun _ => none
    users_info := fun _ => none
    channels_history := fun _ oldest latest =>
      if oldest ≤ 1004 ∧ 1004 ≤ latest then [exCopy] else []
    reactions_get := fun _ _ => none }

/-- The portal between `exLocalWeb` and `exDelayedRemoteWeb`. -/
def exDelayedPortal : Portal :=
  { local_web := exLocalWeb, remote_web := exDelayedRemoteWeb,
    local_channel_id := "L".toList, remote_channel_id := "R".toList }

/-- A reaction on the message at `1000`. -/
def exReaction : ReactionEvent := { item_channel := "L".toList, item_ts := 1000 }

/-- The bracket structure of a text, read left to right: the state is `true` inside a
bracket group; `none` when a `<` stands inside a group. -/
def scanBrackets : Bool → Str → Option Bool
  | q, [] => some q
  | false, c :: r => if c = '<' then scanBrackets true r else scanBrackets false r
  | true, c :: r =>
    if c = '<' then none else if c = '>' then scanBrackets false r else scanBrackets true r

/-- A user with the given id and display name. -/
def exUser (id display_name : Str) : User :=
  { id := id, name := [], profile := { display_name := display_name, real_name := [], image_48 := [] } }

/-- A workspace with three unusual users: `U1` has brackets in its display name, `U2`
resolves to a user whose id is `>`, the display name of `U3` is the replacement pattern
made of the dollar-backtick and the dollar-apostrophe. -/
def exOddWeb : Web :=
  { cached_users := fun _ => none
    users_info := fun user_id =>
      if user_id = "U1".toList then some (exUser "U1".toList "X<@Y>Z".toList)
      else if user_id = "U2".toList then some (exUser ">".toList "N".toList)
      else if user_id = "U3".toList then
        some (exUser "U3".toList ['$', Char.ofNat 96, '$', Char.ofNat 39])
      else if user_id = "XYZ".toList then some (exUser "XYZ".toList "q".toList)
      else if user_id = "NU2".toList then some (exUser "NU2".toList "z".toList)
      else none
    channels_history := fun _ _ _ => []
    reactions_get := fun _ _ => none }

/-- The text `U123 <@U123>`, in which the id stands before its token. -/
def exEarlier : List Seg :=
  [Seg.plain 'U', Seg.plain '1', Seg.plain '2', Seg.plain '3', Seg.plain ' ',
   Seg.mention "U123".toList]

/-! ## The correlator: shape of its trace -/

theorem searchMessage_effects (side : Side) (web : Web) (channel_id : Str) (text : Expected)
    (start_ts end_ts : ℚ) :
    ∃ logs : List Log, (searchMessage side web channel_id text start_ts end_ts).2 =
      Effect.request side (Request.channels_history channel_id start_ts end_ts) ::
        logs.map Effect.log := by
  unfold searchMessage
  simp only
  split
  · exact ⟨[], rfl⟩
  · exact ⟨_, rfl⟩

theorem searchMessage_request_mem (side : Side) (web : Web) (channel_id : Str) (text : Expected)
    (start_ts end_ts : ℚ) :
    Effect.request side (Request.channels_history channel_id start_ts end_ts) ∈
      (searchMessage side web channel_id text start_ts end_ts).2 := by
  obtain ⟨logs, hl⟩ := searchMessage_effects side web channel_id text start_ts end_ts
  rw [hl]
  exact List.mem_cons_self _ _

/-! ## The dispatcher: events that are ignored -/

/-- C4: a `message` event whose subtype is `bot_message`, and a `message_changed` or
`message_deleted` event whose `previous_message.subtype` is `bot_message`, leave an empty
trace: no request to either side (no post, update, delete or search) whatever the other
fields of the event are. -/
theorem C4_bot_message_no_outbound_call (p : Portal) (event : MessageEvent)
    (h : event.subtype = some "bot_message".toList ∨
      ((event.subtype = some "message_changed".toList ∨
          event.subtype = some "message_deleted".toList) ∧
        ∃ previous_message, event.previous_message = some previous_message ∧
          previous_message.subtype = some "bot_message".toList)) :
    onMessage p event = [] := by
  unfold onMessage
  split
  · rfl
  · rcases h with h | ⟨h, prev, hp, hs⟩
    · rw [h]; simp
    · have hst : ∃ st, event.subtype = some st ∧
          (st = "message_changed".toList ∨ st = "message_deleted".toList) := by
        rcases h with h | h
        · exact ⟨_, h, Or.inl rfl⟩
        · exact ⟨_, h, Or.inr rfl⟩
      obtain ⟨st, hst, hor⟩ := hst
      rw [hst]
      simp only [hor, if_true]
      unfold onChangedOrDeleted
      rw [hp]
      simp [hs]

theorem C4_bot_message_no_outbound_call_witness : onMessage exPortal exBotEvent = [] :=
  C4_bot_message_no_outbound_call exPortal exBotEvent (Or.inl rfl)

/-- C5: a `message_changed` event whose `previous_message.text` is identical to
`message.text` leaves an empty trace: no mutation and no correlation search. -/
theorem C5_same_text_no_outbound_call (p : Portal) (event : MessageEvent)
    (previous_message : PreviousMessage) (message : ChangedMessage)
    (hsub : event.subtype = some "message_changed".toList)
    (hprev : event.previous_message = some previous_message)
    (hmsg : event.message = some message)
    (htext : previous_message.text = message.text) :
    onMessage p event = [] := by
  unfold onMessage
  split
  · rfl
  · rw [hsub]
    simp only [true_or, if_true]
    unfold onChangedOrDeleted
    rw [hprev, hmsg]
    simp [htext]

theorem C5_same_text_no_outbound_call_witness : onMessage exPortal exAttachmentEdit = [] :=
  C5_same_text_no_outbound_call exPortal exAttachmentEdit
    { subtype := none, text := some "root".toList, ts := 1000 } { text := some "root".toList }
    rfl rfl rfl rfl

/-! ## The correlator: searches without a match -/

theorem promiseAll_some {α : Type} (l : List (Option α)) (xs : List α)
    (h : promiseAll l = some xs) : l = xs.map some := by
  induction l generalizing xs with
  | nil => simp [promiseAll] at h; subst h; rfl
  | cons p ps ih =>
    cases p with
    | none => simp [promiseAll] at h
    | some a =>
      cases hps : promiseAll ps with
      | none => simp [promiseAll, hps] at h
      | some as =>
        simp [promiseAll, hps] at h
        subst h
        simp [ih as hps]

theorem searchLoop_none (text : Expected) (start_ts end_ts : ℚ) (messages : List Message)
    (h : ∀ m ∈ messages, ¬ (text = Expected.null ∨ Expected.str (removeMentionTag m.text) = text)) :
    (searchLoop text start_ts end_ts messages).1 = none := by
  induction messages with
  | nil => rfl
  | cons a rest ih =>
    unfold searchLoop
    have ha := h a (List.mem_cons_self _ _)
    simp only [ha, if_false]
    exact ih (fun m hm => h m (List.mem_cons_of_mem _ hm))

theorem searchMessage_none_of_noMatch (side : Side) (web : Web) (channel_id : Str) (s : Str)
    (start_ts end_ts : ℚ) (h : NoMatch web channel_id s start_ts end_ts) :
    (searchMessage side web channel_id (Expected.str s) start_ts end_ts).1 = none := by
  unfold searchMessage
  simp only [List.reverse_reverse]
  split
  · rfl
  · rename_i messages heq
    apply searchLoop_none
    intro m hm hc
    have hall := promiseAll_some _ _ heq
    have hm2 : some m ∈ rawMessages web (web.channels_history channel_id start_ts end_ts) := by
      rw [hall]; exact List.mem_map_of_mem _ hm
    unfold rawMessages at hm2
    obtain ⟨m0, hm0, hm0eq⟩ := List.mem_map.1 hm2
    cases hp : preprocessUserMentions web m0.text with
    | none => simp [hp] at hm0eq
    | some t =>
      simp only [hp, Option.map_some', Option.some.injEq] at hm0eq
      subst hm0eq
      apply h m0 hm0
      rcases hc with hc | hc
      · cases hc
      · simp only [Expected.str.injEq] at hc
        simp [searchText, normalize, hp, hc]

theorem quiet_searchMessage (web : Web) (channel_id : Str) (text : Expected)
    (start_ts end_ts : ℚ) :
    Quiet (searchMessage Side.remote_web web channel_id text start_ts end_ts).2 := by
  obtain ⟨logs, hl⟩ := searchMessage_effects Side.remote_web web channel_id text start_ts end_ts
  rw [hl]
  constructor
  · intro e he
    rcases List.mem_cons.1 he with he | he
    · subst he; rfl
    · obtain ⟨l, _, hl⟩ := List.mem_map.1 he
      subst hl; rfl
  · rw [List.countP_cons]
    have : List.countP (Effect.isSearchOn Side.remote_web) (List.map Effect.log logs) = 0 := by
      rw [List.countP_eq_zero]
      intro e he
      obtain ⟨l, _, hl⟩ := List.mem_map.1 he
      subst hl; simp [Effect.isSearchOn]
    rw [this]
    split <;> simp

theorem quiet_nil : Quiet [] := by
  constructor
  · intro e he; cases he
  · simp

theorem quiet_local_append (web : Web) (channel_id : Str) (text : Expected)
    (start_ts end_ts : ℚ) (extra rest : List Effect) (hrest : Quiet (extra ++ rest))  :
    Quiet ((searchMessage Side.local_web web channel_id text start_ts end_ts).2 ++ extra ++ rest) := by
  obtain ⟨logs, hl⟩ := searchMessage_effects Side.local_web web channel_id text start_ts end_ts
  rw [hl, List.append_assoc]
  constructor
  · intro e he
    rcases List.mem_append.1 he with he | he
    · rcases List.mem_cons.1 he with he | he
      · subst he; rfl
      · obtain ⟨l, _, hl⟩ := List.mem_map.1 he
        subst hl; rfl
    · exact hrest.1 e he
  · rw [List.countP_append, List.countP_cons]
    have : List.countP (Effect.isSearchOn Side.remote_web) (List.map Effect.log logs) = 0 := by
      rw [List.countP_eq_zero]
      intro e he
      obtain ⟨l, _, hl⟩ := List.mem_map.1 he
      subst hl; simp [Effect.isSearchOn]
    rw [this]
    have h2 := hrest.2
    rw [List.countP_append] at h2
    simp [Effect.isSearchOn]
    exact h2

/-- C10: when no message of the history response has, once normalized by the search, the
expected text (the empty response included), `searchMessage` resolves with no message;
and the edit, delete, thread-reply and reaction handlers whose search on the opposite side
finds no match send no mutation and search the opposite side at most once. -/
theorem C10_no_match_drops (p : Portal) :
    (∀ (side : Side) (web : Web) (channel_id s : Str) (start_ts end_ts : ℚ),
      NoMatch web channel_id s start_ts end_ts →
      (searchMessage side web channel_id (Expected.str s) start_ts end_ts).1 = none) ∧
    (∀ (event : MessageEvent) (subtype : Str) (previous_message : PreviousMessage) (s : Str),
      event.subtype = some subtype →
      (subtype = "message_changed".toList ∨ subtype = "message_deleted".toList) →
      event.previous_message = some previous_message →
      previous_message.text = some s →
      NoMatch p.remote_web p.remote_channel_id s (previous_message.ts - START_TS_DIFF)
        (previous_message.ts - START_TS_DIFF + END_TS_DIFF) →
      Quiet (onMessage p event)) ∧
    (∀ (event : MessageEvent) (ts : ℚ) (message : Message),
      event.subtype = none → event.thread_ts = some ts →
      (searchMessage Side.local_web p.local_web p.local_channel_id Expected.null ts ts).1 =
        some message →
      NoMatch p.remote_web p.remote_channel_id message.text (message.ts - START_TS_DIFF)
        (message.ts - START_TS_DIFF + END_TS_DIFF) →
      Quiet (onMessage p event)) ∧
    (∀ (event : ReactionEvent) (message : Message),
      (searchMessage Side.local_web p.local_web p.local_channel_id Expected.null
        event.item_ts event.item_ts).1 = some message →
      NoMatch p.remote_web p.remote_channel_id message.text (event.item_ts - START_TS_DIFF)
        (event.item_ts + END_TS_DIFF) →
      Quiet (reactionHandler p event)) := by
  refine ⟨?_, ?_, ?_, ?_⟩
  · intro side web channel_id s start_ts end_ts h
    exact searchMessage_none_of_noMatch side web channel_id s start_ts end_ts h
  · intro event subtype prev s hsub hor hprev htext hno
    have hnone := searchMessage_none_of_noMatch Side.remote_web _ _ _ _ _ hno
    unfold onMessage
    split
    · exact quiet_nil
    · rw [hsub]
      simp only [hor, if_true]
      unfold onChangedOrDeleted
      rw [hprev]
      simp only [htext, expectedOf]
      split
      · exact quiet_nil
      · split
        · exact quiet_nil
        · split
          · simp only [hnone]
            exact quiet_searchMessage _ _ _ _ _
          · split
            · constructor
              · intro e he
                simp only [List.mem_singleton] at he
                subst he; rfl
              · simp [Effect.isSearchOn]
            · simp only [hnone]
              exact quiet_searchMessage _ _ _ _ _
  · intro event ts message hsub hts hroot hno
    have hnone := searchMessage_none_of_noMatch Side.remote_web _ _ _ _ _ hno
    unfold onMessage
    split
    · exact quiet_nil
    · rw [hsub]
      unfold onPlainMessage
      simp only [hts, hroot]
      cases hu : getUser p.local_web event.user with
      | none =>
        simp only
        have := quiet_local_append p.local_web p.local_channel_id Expected.null ts ts [] [] quiet_nil
        simpa using this
      | some user =>
        simp only [hnone]
        have := quiet_local_append p.local_web p.local_channel_id Expected.null ts ts []
          _ (quiet_searchMessage p.remote_web p.remote_channel_id (Expected.str message.text)
            (message.ts - START_TS_DIFF) (message.ts - START_TS_DIFF + END_TS_DIFF))
        simpa using this
  · intro event message hroot hno
    have hnone := searchMessage_none_of_noMatch Side.remote_web _ _ _ _ _ hno
    unfold reactionHandler
    split
    · exact quiet_nil
    · simp only [hroot]
      split
      · have := quiet_local_append p.local_web p.local_channel_id Expected.null event.item_ts
          event.item_ts [Effect.request Side.local_web
            (Request.reactions_get p.local_channel_id message.ts)] [] (by
              constructor
              · intro e he
                simp only [List.append_nil, List.mem_singleton] at he
                subst he; rfl
              · simp [Effect.isSearchOn])
        simpa using this
      · simp only [hnone]
        apply quiet_local_append
        have hq := quiet_searchMessage p.remote_web p.remote_channel_id (Expected.str message.text)
            (event.item_ts - START_TS_DIFF) (event.item_ts + END_TS_DIFF)
        constructor
        · intro e he
          rcases List.mem_append.1 he with he | he
          · simp only [List.mem_singleton] at he
            subst he; rfl
          · exact hq.1 e he
        · rw [List.countP_append]
          have := hq.2
          simp [Effect.isSearchOn]
          exact this

theorem C10_no_match_drops_witness :
    NoMatch exPortal.remote_web exPortal.remote_channel_id "gone".toList
      ((1000 : ℚ) - START_TS_DIFF) ((1000 : ℚ) - START_TS_DIFF + END_TS_DIFF) ∧
    Quiet (onMessage exPortal exMissedEdit) :=
  have h : NoMatch exPortal.remote_web exPortal.remote_channel_id "gone".toList
      ((1000 : ℚ) - START_TS_DIFF) ((1000 : ℚ) - START_TS_DIFF + END_TS_DIFF) := by
    unfold NoMatch
    decide
  ⟨h, (C10_no_match_drops exPortal).2.1 exMissedEdit "message_changed".toList
    { subtype := none, text := some "gone".toList, ts := 1000 } "gone".toList
    rfl (Or.inl rfl) rfl rfl h⟩

/-! ## The correlator: which match is returned -/

/-- C2 fails on the code: the history response `[root at 1002, root at 1001]`, newest
first, holds two messages with the expected text `root`; `searchMessage` resolves with the
message at `1002`, the latest match, and so it does when the expected text is `null`. -/
theorem C2_searchMessage_returns_latest_match :
    exRemoteWeb.channels_history "R".toList 997 1003 =
      [{ ts := 1002, text := "root".toList, attachments := none },
       { ts := 1001, text := "root".toList, attachments := none }] ∧
    (searchMessage Side.remote_web exRemoteWeb "R".toList (Expected.str "root".toList)
      997 1003).1 = some { ts := 1002, text := "root".toList, attachments := none } ∧
    (searchMessage Side.remote_web exRemoteWeb "R".toList Expected.null 997 1003).1 =
      some { ts := 1002, text := "root".toList, attachments := none } := by
  refine ⟨rfl, ?_, ?_⟩ <;> decide

/-! ## Attachment upserts -/

theorem upsertEdited_loop (event_ts : ℚ) (l : List Attachment) (acc : List Attachment) (b : Bool) :
    l.foldl (fun (state : List Attachment × Bool) attachment =>
      if attachment.fallback = some EDITED_FALLBACK_TAG then
        (state.1 ++ [{ attachment with ts := some event_ts }], true)
      else (state.1 ++ [attachment], state.2)) (acc, b) =
    (acc ++ l.map (fun a => if hasTag EDITED_FALLBACK_TAG a then { a with ts := some event_ts } else a),
      b || l.any (hasTag EDITED_FALLBACK_TAG)) := by
  induction l generalizing acc b with
  | nil => simp
  | cons a r ih =>
    simp only [List.foldl_cons]
    by_cases h : a.fallback = some EDITED_FALLBACK_TAG
    · simp only [h, if_true]
      rw [ih]
      simp [hasTag, h]
    · simp only [h, if_false]
      rw [ih]
      simp [hasTag, h]

theorem upsertEdited_eq (event_ts : ℚ) (l : List Attachment) :
    upsertEdited event_ts l =
      if l.any (hasTag EDITED_FALLBACK_TAG) then
        l.map (fun a => if hasTag EDITED_FALLBACK_TAG a then { a with ts := some event_ts } else a)
      else editMarker event_ts :: l := by
  unfold upsertEdited
  simp only [upsertEdited_loop, List.nil_append, Bool.false_or]
  by_cases h : l.any (hasTag EDITED_FALLBACK_TAG) = true
  · simp only [h, if_true]
  · simp only [h, if_false]
    have : l.map (fun a => if hasTag EDITED_FALLBACK_TAG a then { a with ts := some event_ts } else a) = l := by
      have h2 : ∀ a ∈ l, hasTag EDITED_FALLBACK_TAG a = false := by
        intro a ha
        by_contra hc
        exact h (List.any_eq_true.2 ⟨a, ha, by simpa using hc⟩)
      calc l.map _ = l.map id := List.map_congr_left (fun a ha => by simp [h2 a ha])
        _ = l := List.map_id l
    simp only [Bool.false_eq_true, if_false, this]
    rfl

theorem upsertEmoji_loop (e : Attachment) (l : List Attachment) (k : Nat) (hk : k ≤ l.length) :
    ((List.range k).foldl (fun (state : List Attachment × Bool) i =>
      match state.1.get? i with
      | some a =>
        if a.fallback = some EMOJI_FALLBACK_TAG then (state.1.set i e, true)
        else state
      | none => state) (l, false)) =
    ((l.take k).map (fun a => if hasTag EMOJI_FALLBACK_TAG a then e else a) ++ l.drop k,
      (l.take k).any (hasTag EMOJI_FALLBACK_TAG)) := by
  induction k with
  | zero => simp
  | succ k ih =>
    have hk' : k < l.length := hk
    rw [List.range_succ, List.foldl_append, ih (Nat.le_of_lt hk')]
    simp only [List.foldl_cons, List.foldl_nil]
    have hlen : ((l.take k).map (fun a => if hasTag EMOJI_FALLBACK_TAG a then e else a)).length = k := by
      simp [List.length_take, Nat.min_eq_left (Nat.le_of_lt hk')]
    have hget : ((l.take k).map (fun a => if hasTag EMOJI_FALLBACK_TAG a then e else a) ++ l.drop k).get? k
        = some (l.get ⟨k, hk'⟩) := by
      rw [List.get?_eq_getElem?, List.getElem?_append_right (by omega), hlen]
      simp [List.getElem?_drop, List.getElem?_eq_getElem hk']
    rw [hget]
    have htake : l.take (k + 1) = l.take k ++ [l.get ⟨k, hk'⟩] := by
      rw [List.take_succ, List.getElem?_eq_getElem hk']; rfl
    have hdrop : l.drop k = l.get ⟨k, hk'⟩ :: l.drop (k + 1) := by
      simp
    simp only
    by_cases h : (l.get ⟨k, hk'⟩).fallback = some EMOJI_FALLBACK_TAG
    · simp only [h, if_true]
      rw [htake, hdrop]
      have hset : ∀ (xs ys : List Attachment) (y : Attachment), xs.length = k →
          (xs ++ y :: ys).set k e = xs ++ e :: ys := by
        intro xs ys y hx
        subst hx
        simp
      rw [hset _ _ _ hlen]
      simp only [List.map_append, List.map_cons, List.map_nil, List.append_assoc,
        List.singleton_append, List.any_append, List.any_cons, List.any_nil, hasTag, h,
        decide_True, if_true, Bool.or_true, Bool.true_or, Bool.or_false]
    · simp only [h, if_false]
      rw [htake]
      conv_lhs => rw [hdrop]
      simp only [List.map_append, List.map_cons, List.map_nil, List.append_assoc,
        List.singleton_append, List.any_append, List.any_cons, List.any_nil, hasTag, h,
        decide_False, if_false, Bool.or_false, Bool.false_eq_true]

theorem upsertEmoji_eq (e : Attachment) (l : List Attachment) :
    upsertEmoji e l =
      if l.any (hasTag EMOJI_FALLBACK_TAG) then
        l.map (fun a => if hasTag EMOJI_FALLBACK_TAG a then e else a)
      else l ++ [e] := by
  unfold upsertEmoji
  simp only [upsertEmoji_loop e l l.length (Nat.le_refl _), List.take_length, List.drop_length,
    List.append_nil]
  by_cases h : l.any (hasTag EMOJI_FALLBACK_TAG) = true
  · simp only [h, if_true]
  · simp only [h, if_false]
    have : l.map (fun a => if hasTag EMOJI_FALLBACK_TAG a then e else a) = l := by
      have h2 : ∀ a ∈ l, hasTag EMOJI_FALLBACK_TAG a = false := by
        intro a ha
        by_contra hc
        exact h (List.any_eq_true.2 ⟨a, ha, by simpa using hc⟩)
      calc l.map _ = l.map id := List.map_congr_left (fun a ha => by simp [h2 a ha])
        _ = l := List.map_id l
    simp only [Bool.false_eq_true, if_false, this]

theorem generateEmojiAttachment_fallback (web : Web) (reactions : Option (List Reaction))
    (e : Attachment) (h : generateEmojiAttachment web reactions = some e) :
    e.fallback = some EMOJI_FALLBACK_TAG := by
  unfold generateEmojiAttachment at h
  simp only at h
  split at h
  · cases h
  · split at h
    · cases h
    · simp only [Option.some.injEq] at h
      subst h
      rfl

theorem countP_map_tag (tag : Str) (f : Attachment → Attachment) (l : List Attachment)
    (hf : ∀ a, a.fallback = some tag → (f a).fallback = some tag) :
    (l.map (fun a => if hasTag tag a then f a else a)).countP (hasTag tag) =
      l.countP (hasTag tag) := by
  induction l with
  | nil => rfl
  | cons a r ih =>
    simp only [List.map_cons, List.countP_cons, ih]
    by_cases h : a.fallback = some tag
    · simp [hasTag, h, hf a h]
    · simp [hasTag, h]

theorem any_hasTag_iff (tag : Str) (l : List Attachment) :
    l.any (hasTag tag) = true ↔ ∃ a ∈ l, a.fallback = some tag := by
  simp [List.any_eq_true, hasTag]

theorem countP_hasTag_pos (tag : Str) (l : List Attachment) :
    0 < l.countP (hasTag tag) ↔ ∃ a ∈ l, a.fallback = some tag := by
  simp [List.countP_pos_iff, hasTag]

/-- C7: for the emoji-summary upsert and for the edit-marker upsert, on every attachment
list: when the list holds an attachment with the tag, the result has the same length, the
tagged entries are updated at their positions and every other entry is unchanged; when it
holds none, the result is one longer and contains the new tagged attachment (last for the
emoji summary, first for the edit marker); a list with at most one attachment of the tag
gives a list with exactly one. -/
theorem C7_attachment_upserts (web : Web) (reactions : Option (List Reaction))
    (emoji_attachment : Attachment) (event_ts : ℚ) (attachments : List Attachment)
    (he : generateEmojiAttachment web reactions = some emoji_attachment) :
    ((∃ a ∈ attachments, a.fallback = some EMOJI_FALLBACK_TAG) →
      (upsertEmoji emoji_attachment attachments).length = attachments.length ∧
      upsertEmoji emoji_attachment attachments =
        attachments.map (fun a =>
          if a.fallback = some EMOJI_FALLBACK_TAG then emoji_attachment else a)) ∧
    ((∀ a ∈ attachments, a.fallback ≠ some EMOJI_FALLBACK_TAG) →
      (upsertEmoji emoji_attachment attachments).length = attachments.length + 1 ∧
      upsertEmoji emoji_attachment attachments = attachments ++ [emoji_attachment] ∧
      emoji_attachment.fallback = some EMOJI_FALLBACK_TAG) ∧
    (attachments.countP (hasTag EMOJI_FALLBACK_TAG) ≤ 1 →
      (upsertEmoji emoji_attachment attachments).countP (hasTag EMOJI_FALLBACK_TAG) = 1) ∧
    ((∃ a ∈ attachments, a.fallback = some EDITED_FALLBACK_TAG) →
      (upsertEdited event_ts attachments).length = attachments.length ∧
      upsertEdited event_ts attachments =
        attachments.map (fun a =>
          if a.fallback = some EDITED_FALLBACK_TAG then { a with ts := some event_ts } else a)) ∧
    ((∀ a ∈ attachments, a.fallback ≠ some EDITED_FALLBACK_TAG) →
      (upsertEdited event_ts attachments).length = attachments.length + 1 ∧
      upsertEdited event_ts attachments = editMarker event_ts :: attachments ∧
      (editMarker event_ts).fallback = some EDITED_FALLBACK_TAG) ∧
    (attachments.countP (hasTag EDITED_FALLBACK_TAG) ≤ 1 →
      (upsertEdited event_ts attachments).countP (hasTag EDITED_FALLBACK_TAG) = 1) := by
  have hfb := generateEmojiAttachment_fallback web reactions emoji_attachment he
  have hmapE : ∀ l : List Attachment,
      l.map (fun a => if a.fallback = some EMOJI_FALLBACK_TAG then emoji_attachment else a) =
      l.map (fun a => if hasTag EMOJI_FALLBACK_TAG a then emoji_attachment else a) := by
    intro l; simp [hasTag]
  have hmapD : ∀ l : List Attachment,
      l.map (fun a => if a.fallback = some EDITED_FALLBACK_TAG then
        { a with ts := some event_ts } else a) =
      l.map (fun a => if hasTag EDITED_FALLBACK_TAG a then { a with ts := some event_ts } else a) := by
    intro l; simp [hasTag]
  refine ⟨?_, ?_, ?_, ?_, ?_, ?_⟩
  · intro hex
    have hany := (any_hasTag_iff _ _).2 hex
    rw [upsertEmoji_eq, if_pos hany, hmapE]
    exact ⟨List.length_map _ _, rfl⟩
  · intro hall
    have hany : ¬ attachments.any (hasTag EMOJI_FALLBACK_TAG) = true := by
      rw [any_hasTag_iff]
      rintro ⟨a, ha, hfa⟩
      exact hall a ha hfa
    rw [upsertEmoji_eq, if_neg hany]
    exact ⟨by simp, rfl, hfb⟩
  · intro hcount
    rw [upsertEmoji_eq]
    by_cases hany : attachments.any (hasTag EMOJI_FALLBACK_TAG) = true
    · rw [if_pos hany, countP_map_tag _ (fun _ => emoji_attachment) _ (fun _ _ => hfb)]
      have := (countP_hasTag_pos _ _).2 ((any_hasTag_iff _ _).1 hany)
      omega
    · rw [if_neg hany, List.countP_append]
      have h0 : attachments.countP (hasTag EMOJI_FALLBACK_TAG) = 0 := by
        by_contra hc
        exact hany ((any_hasTag_iff _ _).2 ((countP_hasTag_pos _ _).1 (Nat.pos_of_ne_zero hc)))
      simp [h0, hasTag, hfb]
  · intro hex
    have hany := (any_hasTag_iff _ _).2 hex
    rw [upsertEdited_eq, if_pos hany, hmapD]
    exact ⟨List.length_map _ _, rfl⟩
  · intro hall
    have hany : ¬ attachments.any (hasTag EDITED_FALLBACK_TAG) = true := by
      rw [any_hasTag_iff]
      rintro ⟨a, ha, hfa⟩
      exact hall a ha hfa
    rw [upsertEdited_eq, if_neg hany]
    exact ⟨by simp, rfl, rfl⟩
  · intro hcount
    rw [upsertEdited_eq]
    by_cases hany : attachments.any (hasTag EDITED_FALLBACK_TAG) = true
    · rw [if_pos hany, countP_map_tag _ (fun a => { a with ts := some event_ts }) _
        (fun _ h => h)]
      have := (countP_hasTag_pos _ _).2 ((any_hasTag_iff _ _).1 hany)
      omega
    · rw [if_neg hany, List.countP_cons]
      have h0 : attachments.countP (hasTag EDITED_FALLBACK_TAG) = 0 := by
        by_contra hc
        exact hany ((any_hasTag_iff _ _).2 ((countP_hasTag_pos _ _).1 (Nat.pos_of_ne_zero hc)))
      simp [h0, hasTag, editMarker]

theorem C7_attachment_upserts_witness :
    generateEmojiAttachment exLocalWeb (exLocalWeb.reactions_get "L".toList 1000) = some exSummary ∧
    (∃ a ∈ exAttachments, a.fallback = some EMOJI_FALLBACK_TAG) ∧
    (upsertEmoji exSummary exAttachments).length = exAttachments.length ∧
    upsertEmoji exSummary exAttachments =
      exAttachments.map (fun a =>
        if a.fallback = some EMOJI_FALLBACK_TAG then exSummary else a) :=
  have he : generateEmojiAttachment exLocalWeb (exLocalWeb.reactions_get "L".toList 1000)
      = some exSummary := by decide
  have hex : ∃ a ∈ exAttachments, a.fallback = some EMOJI_FALLBACK_TAG := by decide
  ⟨he, hex, (C7_attachment_upserts exLocalWeb _ exSummary 1005 exAttachments he).1 hex⟩

/-! ## The reaction aggregator -/

theorem arrayJoin_eq_intercalate (sep : Str) (xs : List Str) :
    arrayJoin sep xs = List.intercalate sep xs := by
  induction xs with
  | nil => rfl
  | cons a r ih =>
    cases r with
    | nil => simp [arrayJoin, List.intercalate]
    | cons b r =>
      rw [arrayJoin, ih]
      simp [List.intercalate, List.intersperse]

theorem objGet_objSet {β : Type} (obj : List (Str × β)) (key : Str) (value : β) (k : Str) :
    objGet (objSet obj key value) k = if k = key then some value else objGet obj k := by
  induction obj with
  | nil =>
    by_cases h : k = key
    · simp [objSet, objGet, h]
    · simp [objSet, objGet, h, Ne.symm h]
  | cons kv r ih =>
    obtain ⟨k0, v0⟩ := kv
    by_cases h0 : k0 = key
    · subst h0
      by_cases h : k = k0
      · simp [objSet, objGet, h]
      · simp [objSet, objGet, h, Ne.symm h]
    · simp only [objSet, h0, if_false, objGet, ih]
      by_cases h : k0 = k
      · subst h
        simp [h0]
      · simp [h]

theorem mem_of_objGet {β : Type} (obj : List (Str × β)) (k : Str) (v : β)
    (h : objGet obj k = some v) : (k, v) ∈ obj := by
  induction obj with
  | nil => simp [objGet] at h
  | cons kv r ih =>
    obtain ⟨k0, v0⟩ := kv
    simp only [objGet] at h
    by_cases h0 : k0 = k
    · simp only [h0, if_true, Option.some.injEq] at h
      subst h0; subst h
      exact List.mem_cons_self _ _
    · simp only [h0, if_false] at h
      exact List.mem_cons_of_mem _ (ih h)

theorem mem_objSet {β : Type} (obj : List (Str × β)) (key : Str) (value : β) (kv : Str × β)
    (h : kv ∈ objSet obj key value) : kv ∈ obj ∨ kv = (key, value) := by
  induction obj with
  | nil =>
    simp only [objSet, List.mem_singleton] at h
    exact Or.inr h
  | cons kv0 r ih =>
    obtain ⟨k0, v0⟩ := kv0
    simp only [objSet] at h
    by_cases h0 : k0 = key
    · simp only [h0, if_true, List.mem_cons] at h
      rcases h with h | h
      · exact Or.inr h
      · exact Or.inl (List.mem_cons_of_mem _ h)
    · simp only [h0, if_false, List.mem_cons] at h
      rcases h with h | h
      · exact Or.inl (h ▸ List.mem_cons_self _ _)
      · rcases ih h with h | h
        · exact Or.inl (List.mem_cons_of_mem _ h)
        · exact Or.inr h

theorem collect_inner (web : Web) (ids0 : List Str) (ids : List Str) (users : List (Str × Slot))
    (h : Collected web ids0 users) :
    Collected web (ids0 ++ ids) (ids.foldl (fun users user_id =>
      match objGet users user_id with
      | some _ => users
      | none => objSet users user_id (Slot.promise (getUser web user_id))) users) := by
  induction ids generalizing ids0 users with
  | nil => simpa using h
  | cons a r ih =>
    simp only [List.foldl_cons]
    have hstep : Collected web (ids0 ++ [a]) (match objGet users a with
        | some _ => users
        | none => objSet users a (Slot.promise (getUser web a))) := by
      cases hg : objGet users a with
      | some v =>
        refine ⟨fun kv hkv => ⟨List.mem_append_left _ (h.1 kv hkv).1, (h.1 kv hkv).2⟩, ?_⟩
        intro k hk
        rcases List.mem_append.1 hk with hk | hk
        · exact h.2 k hk
        · simp only [List.mem_singleton] at hk
          subst hk
          exact ⟨v, hg⟩
      | none =>
        refine ⟨?_, ?_⟩
        · intro kv hkv
          rcases mem_objSet _ _ _ _ hkv with hkv | hkv
          · exact ⟨List.mem_append_left _ (h.1 kv hkv).1, (h.1 kv hkv).2⟩
          · subst hkv
            exact ⟨by simp, rfl⟩
        · intro k hk
          rw [objGet_objSet]
          by_cases hka : k = a
          · simp [hka]
          · simp only [hka, if_false]
            rcases List.mem_append.1 hk with hk | hk
            · exact h.2 k hk
            · simp only [List.mem_singleton] at hk
              exact absurd hk hka
    have := ih (ids0 ++ [a]) _ hstep
    simpa using this

theorem collectUsers_collected (web : Web) (reactions : List Reaction) :
    Collected web (reactions.map (fun r => r.users)).flatten (collectUsers web reactions) := by
  unfold collectUsers
  have gen : ∀ (rs : List Reaction) (ids0 : List Str) (users : List (Str × Slot)),
      Collected web ids0 users →
      Collected web (ids0 ++ (rs.map (fun r => r.users)).flatten)
        (rs.foldl (fun users reaction =>
          reaction.users.foldl (fun users user_id =>
            match objGet users user_id with
            | some _ => users
            | none => objSet users user_id (Slot.promise (getUser web user_id))) users) users) := by
    intro rs
    induction rs with
    | nil => intro ids0 users h; simpa using h
    | cons r rest ih =>
      intro ids0 users h
      simp only [List.foldl_cons, List.map_cons, List.flatten_cons]
      have := ih (ids0 ++ r.users) _ (collect_inner web ids0 r.users users h)
      simpa [List.append_assoc] using this
  have := gen reactions [] [] ⟨by simp, by simp⟩
  simpa using this

theorem resolved_foldl (web : Web) (us : List User) (users : List (Str × Slot)) (k : Str)
    (hus : ∀ u ∈ us, getUser web u.id = some u) (h : Resolved web users k) :
    Resolved web (us.foldl (fun users user => objSet users user.id (Slot.user user)) users) k := by
  induction us generalizing users with
  | nil => exact h
  | cons u rest ih =>
    simp only [List.foldl_cons]
    apply ih _ (fun u hu => hus u (List.mem_cons_of_mem _ hu))
    unfold Resolved
    rw [objGet_objSet]
    by_cases hk : k = u.id
    · subst hk
      exact ⟨u, by simp, hus u (List.mem_cons_self _ _)⟩
    · simpa [hk] using h

theorem resolved_of_mem (web : Web) (us : List User) (users : List (Str × Slot)) (k : Str)
    (hus : ∀ u ∈ us, getUser web u.id = some u) (h : ∃ u ∈ us, u.id = k) :
    Resolved web (us.foldl (fun users user => objSet users user.id (Slot.user user)) users) k := by
  induction us generalizing users with
  | nil => obtain ⟨u, hu, _⟩ := h; cases hu
  | cons u rest ih =>
    simp only [List.foldl_cons]
    by_cases hk : u.id = k
    · apply resolved_foldl web rest _ k (fun u hu => hus u (List.mem_cons_of_mem _ hu))
      subst hk
      exact ⟨u, by simp [objGet_objSet], hus u (List.mem_cons_self _ _)⟩
    · apply ih _ (fun u hu => hus u (List.mem_cons_of_mem _ hu))
      obtain ⟨u', hu', hid⟩ := h
      rcases List.mem_cons.1 hu' with hu' | hu'
      · subst hu'; exact absurd hid hk
      · exact ⟨u', hu', hid⟩

theorem promiseAll_of_forall {α β : Type} (f : α → Option β) (l : List α)
    (h : ∀ x ∈ l, ∃ u, f x = some u) :
    ∃ us, promiseAll (l.map f) = some us ∧ l.map f = us.map some := by
  induction l with
  | nil => exact ⟨[], rfl, rfl⟩
  | cons a r ih =>
    obtain ⟨us, hus, hmap⟩ := ih (fun x hx => h x (List.mem_cons_of_mem _ hx))
    obtain ⟨u, hu⟩ := h a (List.mem_cons_self _ _)
    refine ⟨u :: us, ?_, ?_⟩
    · simp [promiseAll, hu, hus]
    · simp [hu, hmap]

theorem reactorNames_eq (web : Web) (users : List (Str × Slot)) (ids : List Str)
    (h : ∀ k ∈ ids, Resolved web users k) :
    reactorNames users ids = some (ids.map (displayName web)) := by
  induction ids with
  | nil => rfl
  | cons a r ih =>
    obtain ⟨u, hget, hu⟩ := h a (List.mem_cons_self _ _)
    simp [reactorNames, hget, ih (fun k hk => h k (List.mem_cons_of_mem _ hk)), displayName, hu]

theorem lines_foldl (web : Web) (users : List (Str × Slot)) (reactions : List Reaction)
    (summary detail : List Str)
    (h : ∀ r ∈ reactions, ∀ k ∈ r.users, Resolved web users k) :
    reactions.foldl (fun acc reaction =>
      match acc, reactorNames users reaction.users with
      | some (emoji_summary, emoji_detail), some names =>
        some (emoji_summary ++ [[':'] ++ reaction.name ++ ": ".toList ++ Nat.toDigits 10 reaction.count],
              emoji_detail ++ [reaction.name ++ ": ".toList ++ arrayJoin ", ".toList names])
      | _, _ => none) (some (summary, detail)) =
    some (summary ++ reactions.map summaryEntry, detail ++ reactions.map (detailEntry web)) := by
  induction reactions generalizing summary detail with
  | nil => simp
  | cons r rest ih =>
    simp only [List.foldl_cons]
    rw [reactorNames_eq web users r.users (h r (List.mem_cons_self _ _))]
    simp only
    rw [ih _ _ (fun r' hr' => h r' (List.mem_cons_of_mem _ hr'))]
    simp [summaryEntry, detailEntry, arrayJoin_eq_intercalate]

/-- C8: for every reaction list whose reactor ids all resolve (to a user carrying that
id), `generateEmojiAttachment` resolves with the attachment whose fallback is
`slackportal_emoji`, whose text is the entries `:name: count` of the reactions in list
order joined by one space, and whose footer is the entries `name: n1, n2, ...` joined by
` | `, the names after an emoji being the display names of that reaction's reactor ids in
order; an empty or absent reaction list gives empty text and footer. -/
theorem C8_emoji_summary (web : Web) (reactions : List Reaction)
    (hres : ∀ r ∈ reactions, ∀ user_id ∈ r.users,
      ∃ u, getUser web user_id = some u ∧ u.id = user_id) :
    generateEmojiAttachment web (some reactions) = some
      { fallback := some "slackportal_emoji".toList
        text := some (List.intercalate " ".toList (reactions.map summaryEntry))
        footer := some (List.intercalate " | ".toList (reactions.map (detailEntry web)))
        ts := none
        rest := [] } ∧
    generateEmojiAttachment web (some []) = some
      { fallback := some "slackportal_emoji".toList, text := some [], footer := some [],
        ts := none, rest := [] } ∧
    generateEmojiAttachment web none = some
      { fallback := some "slackportal_emoji".toList, text := some [], footer := some [],
        ts := none, rest := [] } := by
  refine ⟨?_, rfl, rfl⟩
  have hcol := collectUsers_collected web reactions
  have hids : ∀ k, k ∈ (reactions.map (fun r => r.users)).flatten →
      ∃ u, getUser web k = some u ∧ u.id = k := by
    intro k hk
    obtain ⟨l, hl, hkl⟩ := List.mem_flatten.1 hk
    obtain ⟨r, hr, hrl⟩ := List.mem_map.1 hl
    subst hrl
    exact hres r hr k hkl
  have hslot : ∀ kv ∈ collectUsers web reactions,
      ∃ u, slotOutcome kv.2 = some u ∧ u.id = kv.1 ∧ getUser web kv.1 = some u := by
    intro kv hkv
    obtain ⟨hk, hv⟩ := hcol.1 kv hkv
    obtain ⟨u, hu, hid⟩ := hids kv.1 hk
    exact ⟨u, by rw [hv]; exact hu, hid, hu⟩
  obtain ⟨us, hall, hmap⟩ := promiseAll_of_forall (fun kv : Str × Slot => slotOutcome kv.2)
    (collectUsers web reactions) (fun kv hkv => ⟨_, (hslot kv hkv).choose_spec.1⟩)
  have hus : ∀ u ∈ us, ∃ kv ∈ collectUsers web reactions, slotOutcome kv.2 = some u := by
    intro u hu
    have : some u ∈ (collectUsers web reactions).map (fun kv => slotOutcome kv.2) := by
      rw [hmap]; exact List.mem_map_of_mem _ hu
    obtain ⟨kv, hkv, hf⟩ := List.mem_map.1 this
    exact ⟨kv, hkv, hf⟩
  have hus2 : ∀ u ∈ us, getUser web u.id = some u := by
    intro u hu
    obtain ⟨kv, hkv, hf⟩ := hus u hu
    obtain ⟨u', hu', hid, hget⟩ := hslot kv hkv
    rw [hf] at hu'
    cases hu'
    rw [hid]; exact hget
  have hres2 : ∀ r ∈ reactions, ∀ k ∈ r.users,
      Resolved web (us.foldl (fun users user => objSet users user.id (Slot.user user))
        (collectUsers web reactions)) k := by
    intro r hr k hk
    apply resolved_of_mem web us _ k hus2
    have hkm : k ∈ (reactions.map (fun r => r.users)).flatten :=
      List.mem_flatten.2 ⟨r.users, List.mem_map_of_mem _ hr, hk⟩
    obtain ⟨v, hv⟩ := hcol.2 k hkm
    have hmem := mem_of_objGet _ _ _ hv
    obtain ⟨u, hu, hid, _⟩ := hslot (k, v) hmem
    have : some u ∈ us.map some := by
      rw [← hmap]
      exact List.mem_map.2 ⟨(k, v), hmem, hu⟩
    obtain ⟨u', hu', he⟩ := List.mem_map.1 this
    cases he
    exact ⟨u, hu', hid⟩
  unfold generateEmojiAttachment
  simp only [Option.getD_some, hall]
  rw [lines_foldl web _ reactions [] [] hres2]
  simp [arrayJoin_eq_intercalate, EMOJI_FALLBACK_TAG]

theorem C8_emoji_summary_witness :
    generateEmojiAttachment exLocalWeb (some exReactions) = some
      { fallback := some "slackportal_emoji".toList
        text := some (List.intercalate " ".toList (exReactions.map summaryEntry))
        footer := some (List.intercalate " | ".toList (exReactions.map (detailEntry exLocalWeb)))
        ts := none
        rest := [] } :=
  (C8_emoji_summary exLocalWeb exReactions (by
    intro r hr user_id hid
    have hu : user_id = "U123".toList := by
      simp only [exReactions, List.mem_cons, List.mem_singleton, List.not_mem_nil, or_false] at hr
      rcases hr with hr | hr <;> subst hr <;> simpa using hid
    subst hu
    exact ⟨exAlice, rfl, rfl⟩)).1

/-! ## The mention normalizer on segmented texts -/

theorem matchHere_of_ne (n : Nat) (c : Char) (s : Str) (h : c ≠ '<') :
    matchHere n (c :: s) = none := by
  cases s with
  | nil => rfl
  | cons b r => simp [matchHere, h]

theorem matchAllFrom_skip (n : Nat) (xs r : Str) :
    matchAllFrom n xs.length (xs ++ r) = matchAllFrom n 0 r := by
  induction xs with
  | nil => rfl
  | cons c cs ih => simpa [matchAllFrom] using ih

theorem matchAllFrom_noLt (n : Nat) (xs r : Str) (h : ∀ c ∈ xs, c ≠ '<') :
    matchAllFrom n 0 (xs ++ r) = matchAllFrom n 0 r := by
  induction xs with
  | nil => rfl
  | cons c cs ih =>
    have hc := h c (List.mem_cons_self _ _)
    simp only [List.cons_append, matchAllFrom, matchHere_of_ne n c _ hc]
    exact ih (fun c hc => h c (List.mem_cons_of_mem _ hc))

theorem isIdChar_gt : isIdChar '>' = false := by decide

theorem isIdChar_lt : isIdChar '<' = false := by decide

theorem isIdChar_at : isIdChar '@' = false := by decide

theorem isIdChar_dollar : isIdChar '$' = false := by decide

theorem takeWhile_id (id r : Str) (h : id.all isIdChar = true) :
    (id ++ '>' :: r).takeWhile isIdChar = id ∧ (id ++ '>' :: r).dropWhile isIdChar = '>' :: r := by
  induction id with
  | nil => simp [List.takeWhile, List.dropWhile, isIdChar_gt]
  | cons c cs ih =>
    simp only [List.all_cons, Bool.and_eq_true] at h
    simp [List.takeWhile, List.dropWhile, h.1, ih h.2]

theorem matchHere_mention (n : Nat) (id r : Str) (h : id.all isIdChar = true) :
    matchHere n ('<' :: '@' :: (id ++ '>' :: r)) =
      if n ≤ id.length then some ('<' :: '@' :: (id ++ ['>']), id) else none := by
  obtain ⟨h1, h2⟩ := takeWhile_id id r h
  simp only [matchHere, h1, h2, and_self, if_true, true_and]

theorem dropWhile_body (body r : Str) (hb : body.all (fun c => c != '<' && c != '>') = true)
    (hn : body.all isIdChar = false) :
    ∃ c rest, (body ++ '>' :: r).dropWhile isIdChar = c :: rest ∧ c ≠ '>' := by
  induction body with
  | nil => simp at hn
  | cons c cs ih =>
    simp only [List.all_cons, Bool.and_eq_true, bne_iff_ne, ne_eq] at hb
    by_cases hc : isIdChar c = true
    · simp only [List.all_cons, hc, Bool.true_and] at hn
      obtain ⟨c', rest, h1, h2⟩ := ih (by simpa using hb.2) hn
      exact ⟨c', rest, by simp [List.dropWhile, hc, h1], h2⟩
    · exact ⟨c, cs ++ '>' :: r, by simp [List.dropWhile, hc], hb.1.2⟩

theorem matchHere_group (n : Nat) (body r : Str) (h : (Seg.group body).wf = true) :
    matchHere n ('<' :: (body ++ '>' :: r)) = none := by
  simp only [Seg.wf, Bool.and_eq_true, Bool.not_eq_true'] at h
  obtain ⟨hb, hm⟩ := h
  cases body with
  | nil => simp [matchHere]
  | cons b bs =>
    by_cases hb0 : b = '@'
    · subst hb0
      simp only [isMentionBody, beq_self_eq_true, Bool.true_and] at hm
      simp only [List.all_cons, Bool.and_eq_true] at hb
      obtain ⟨c, rest, h1, h2⟩ := dropWhile_body bs r hb.2 hm
      simp [matchHere, h1, h2]
    · simp [matchHere, hb0]

theorem render_plain (c : Char) (rest : List Seg) :
    render (Seg.plain c :: rest) = c :: render rest := by
  simp [render, Seg.render]

theorem render_group (body : Str) (rest : List Seg) :
    render (Seg.group body :: rest) = '<' :: (body ++ '>' :: render rest) := by
  simp [render, Seg.render]

theorem render_mention (id : Str) (rest : List Seg) :
    render (Seg.mention id :: rest) = '<' :: '@' :: (id ++ '>' :: render rest) := by
  simp [render, Seg.render]

theorem group_noLt (body : Str) (h : (Seg.group body).wf = true) :
    ∀ c ∈ body ++ ['>'], c ≠ '<' := by
  simp only [Seg.wf, Bool.and_eq_true, List.all_eq_true, bne_iff_ne, ne_eq] at h
  intro c hc
  rcases List.mem_append.1 hc with hc | hc
  · exact (h.1 c hc).1
  · simp only [List.mem_singleton] at hc
    subst hc; decide

theorem id_noLt (id : Str) (hid : id.all isIdChar = true) : ∀ c ∈ id, c ≠ '<' := by
  intro c hc hlt
  subst hlt
  have := List.all_eq_true.1 hid _ hc
  rw [isIdChar_lt] at this
  cases this

theorem mention_noLt (id : Str) (hid : id.all isIdChar = true) :
    ∀ c ∈ '@' :: (id ++ ['>']), c ≠ '<' := by
  intro c hc
  rcases List.mem_cons.1 hc with hc | hc
  · subst hc; decide
  · rcases List.mem_append.1 hc with hc | hc
    · exact id_noLt id hid c hc
    · simp only [List.mem_singleton] at hc
      subst hc; decide

theorem matchAllFrom_render (n : Nat) (segs : List Seg) (h : ∀ s ∈ segs, s.wf = true) :
    matchAllFrom n 0 (render segs) = tokens n segs := by
  induction segs with
  | nil => rfl
  | cons s rest ih =>
    have ihr := ih (fun s hs => h s (List.mem_cons_of_mem _ hs))
    have hs := h s (List.mem_cons_self _ _)
    cases s with
    | plain c =>
      have hc : c ≠ '<' := by simpa [Seg.wf] using hs
      rw [render_plain, tokens, matchAllFrom, matchHere_of_ne n c _ hc]
      exact ihr
    | group body =>
      rw [render_group, tokens, matchAllFrom, matchHere_group n body _ hs]
      simp only
      have := matchAllFrom_noLt n (body ++ ['>']) (render rest) (group_noLt body hs)
      simp only [List.append_assoc, List.singleton_append] at this
      rw [this]
      exact ihr
    | mention id =>
      have hid : id.all isIdChar = true := by simpa [Seg.wf] using hs
      rw [render_mention, tokens, matchAllFrom, matchHere_mention n id _ hid]
      by_cases hn : n ≤ id.length
      · simp only [hn, if_true]
        have hlen : ('<' :: '@' :: (id ++ ['>'])).length - 1 = ('@' :: (id ++ ['>'])).length := by
          simp
        rw [hlen]
        have := matchAllFrom_skip n ('@' :: (id ++ ['>'])) (render rest)
        simp only [List.cons_append, List.append_assoc, List.singleton_append, List.nil_append] at this
        rw [this, ihr]
      · simp only [hn, if_false]
        have := matchAllFrom_noLt n ('@' :: (id ++ ['>'])) (render rest) (mention_noLt id hid)
        simp only [List.cons_append, List.append_assoc, List.singleton_append, List.nil_append] at this
        rw [this, ihr]

theorem startsWith_iff (pat s : Str) : startsWith pat s = true ↔ ∃ r, s = pat ++ r := by
  unfold startsWith
  simp only [beq_iff_eq]
  constructor
  · intro h
    refine ⟨s.drop pat.length, ?_⟩
    conv_lhs => rw [← List.take_append_drop pat.length s]
    rw [← h]
  · rintro ⟨r, rfl⟩
    simp

theorem startsWith_head_ne (p c : Char) (ps s : Str) (h : c ≠ p) :
    startsWith (p :: ps) (c :: s) = false := by
  cases hs : startsWith (p :: ps) (c :: s) with
  | false => rfl
  | true =>
    obtain ⟨r, hr⟩ := (startsWith_iff _ _).1 hs
    simp only [List.cons_append, List.cons.injEq] at hr
    exact absurd hr.1 h

theorem splitOnFirst_cons_ne (p c : Char) (ps s : Str) (h : c ≠ p) :
    splitOnFirst (p :: ps) (c :: s) =
      (splitOnFirst (p :: ps) s).map (fun q => (c :: q.1, q.2)) := by
  rw [splitOnFirst, if_neg (by simp [startsWith_head_ne p c ps s h])]

theorem splitOnFirst_skip (p : Char) (ps xs ys : Str) (h : ∀ c ∈ xs, c ≠ p) :
    splitOnFirst (p :: ps) (xs ++ ys) =
      (splitOnFirst (p :: ps) ys).map (fun q => (xs ++ q.1, q.2)) := by
  induction xs with
  | nil => simp
  | cons c cs ih =>
    have hc := h c (List.mem_cons_self _ _)
    rw [List.cons_append, splitOnFirst_cons_ne p c ps _ hc,
      ih (fun c hc => h c (List.mem_cons_of_mem _ hc))]
    cases splitOnFirst (p :: ps) ys <;> simp

theorem splitOnFirst_here (p : Char) (ps b : Str) :
    splitOnFirst (p :: ps) ((p :: ps) ++ b) = some ([], b) := by
  have hs : startsWith (p :: ps) (p :: (ps ++ b)) = true :=
    (startsWith_iff _ _).2 ⟨b, rfl⟩
  rw [List.cons_append, splitOnFirst, if_pos hs]
  simp

theorem getSubstitution_noDollar (matched before after : Str) (rep : Str)
    (h : ∀ c ∈ rep, c ≠ '$') : getSubstitution matched before after rep = rep := by
  induction rep with
  | nil => rfl
  | cons c r ih =>
    have hc := h c (List.mem_cons_self _ _)
    have ihr := ih (fun c hc => h c (List.mem_cons_of_mem _ hc))
    cases r with
    | nil => rfl
    | cons d r' =>
      rw [getSubstitution]
      simp only [hc, if_false]
      rw [ihr]

theorem jsReplace_of_split (s pat rep before after : Str)
    (hs : splitOnFirst pat s = some (before, after)) (h : ∀ c ∈ rep, c ≠ '$') :
    jsReplace s pat rep = before ++ rep ++ after := by
  simp [jsReplace, hs, getSubstitution_noDollar _ _ _ _ h]

theorem id_noDollar (id : Str) (hid : id.all isIdChar = true) : ∀ c ∈ id, c ≠ '$' := by
  intro c hc hd
  subst hd
  have := List.all_eq_true.1 hid _ hc
  rw [isIdChar_dollar] at this
  cases this

theorem startsWith_token_group (id body r : Str) (hid : id.all isIdChar = true)
    (hg : (Seg.group body).wf = true) :
    startsWith ('<' :: '@' :: (id ++ ['>'])) ('<' :: (body ++ '>' :: r)) = false := by
  cases hs : startsWith ('<' :: '@' :: (id ++ ['>'])) ('<' :: (body ++ '>' :: r)) with
  | false => rfl
  | true =>
    obtain ⟨r', hr⟩ := (startsWith_iff _ _).1 hs
    have h1 := matchHere_group 0 body r hg
    rw [hr] at h1
    have h2 := matchHere_mention 0 id r' hid
    simp only [List.cons_append, List.append_assoc, List.singleton_append,
      List.nil_append] at h1
    rw [h2] at h1
    simp at h1

theorem splitOnFirst_token (segs0 : List Seg) (id x : Str)
    (hwf : ∀ s ∈ segs0, s.wf = true) (hid : id.all isIdChar = true) :
    splitOnFirst ('<' :: '@' :: (id ++ ['>']))
      (stripRender segs0 ++ '<' :: '@' :: (id ++ '>' :: x)) = some (stripRender segs0, x) := by
  induction segs0 with
  | nil =>
    have := splitOnFirst_here '<' ('@' :: (id ++ ['>'])) x
    simpa [stripRender] using this
  | cons s rest ih =>
    have ihr := ih (fun s hs => hwf s (List.mem_cons_of_mem _ hs))
    have hs := hwf s (List.mem_cons_self _ _)
    have hcons : stripRender (s :: rest) = s.strip ++ stripRender rest := by
      simp [stripRender]
    rw [hcons, List.append_assoc]
    cases s with
    | plain c =>
      have hc : c ≠ '<' := by simpa [Seg.wf] using hs
      simp only [Seg.strip, List.singleton_append]
      rw [splitOnFirst_cons_ne '<' c _ _ hc, ihr]
      rfl
    | mention id' =>
      have hid' : id'.all isIdChar = true := by simpa [Seg.wf] using hs
      simp only [Seg.strip]
      rw [splitOnFirst_skip '<' _ id' _ (id_noLt id' hid'), ihr]
      rfl
    | group body =>
      simp only [Seg.strip, List.cons_append, List.append_assoc, List.singleton_append,
        List.nil_append]
      rw [splitOnFirst, if_neg (by simp [startsWith_token_group id body _ hid hs])]
      have := splitOnFirst_skip '<' ('@' :: (id ++ ['>'])) (body ++ ['>'])
        (stripRender rest ++ '<' :: '@' :: (id ++ '>' :: x)) (group_noLt body hs)
      simp only [List.append_assoc, List.singleton_append] at this
      rw [this, ihr]
      simp

theorem removeMentionTag_fold (segs0 segs : List Seg)
    (hwf0 : ∀ s ∈ segs0, s.wf = true) (hwf : ∀ s ∈ segs, s.wf = true) :
    (tokens 0 segs).foldl (fun new_text result => jsReplace new_text result.1 result.2)
      (stripRender segs0 ++ render segs) = stripRender segs0 ++ stripRender segs := by
  induction segs generalizing segs0 with
  | nil => simp [tokens, render, stripRender]
  | cons s rest ih =>
    have hs := hwf s (List.mem_cons_self _ _)
    have hrest : ∀ s ∈ rest, s.wf = true := fun s hs => hwf s (List.mem_cons_of_mem _ hs)
    have hwf1 : ∀ t ∈ segs0 ++ [s], t.wf = true := by
      intro t ht
      rcases List.mem_append.1 ht with ht | ht
      · exact hwf0 t ht
      · simp only [List.mem_singleton] at ht
        subst ht; exact hs
    have ih1 := ih (segs0 ++ [s]) hwf1 hrest
    have hfinal : stripRender (segs0 ++ [s]) ++ stripRender rest =
        stripRender segs0 ++ stripRender (s :: rest) := by
      simp [stripRender]
    rw [hfinal] at ih1
    cases s with
    | plain c =>
      rw [render_plain, tokens]
      have : stripRender (segs0 ++ [Seg.plain c]) ++ render rest =
          stripRender segs0 ++ c :: render rest := by
        simp [stripRender, Seg.strip]
      rw [this] at ih1
      exact ih1
    | group body =>
      rw [render_group, tokens]
      have : stripRender (segs0 ++ [Seg.group body]) ++ render rest =
          stripRender segs0 ++ '<' :: (body ++ '>' :: render rest) := by
        simp [stripRender, Seg.strip]
      rw [this] at ih1
      exact ih1
    | mention id =>
      have hid : id.all isIdChar = true := by simpa [Seg.wf] using hs
      rw [render_mention, tokens, if_pos (Nat.zero_le _), List.foldl_cons]
      simp only
      rw [jsReplace_of_split _ _ _ _ _ (splitOnFirst_token segs0 id (render rest) hwf0 hid)
        (id_noDollar id hid)]
      have : stripRender (segs0 ++ [Seg.mention id]) ++ render rest =
          stripRender segs0 ++ id ++ render rest := by
        simp [stripRender, Seg.strip]
      rw [this] at ih1
      exact ih1

theorem removeMentionTag_render (segs : List Seg) (hwf : ∀ s ∈ segs, s.wf = true) :
    removeMentionTag (render segs) = stripRender segs := by
  unfold removeMentionTag matchAll
  rw [matchAllFrom_render 0 segs hwf]
  have := removeMentionTag_fold [] segs (by simp) hwf
  simpa [stripRender] using this

theorem render_plains (id : Str) : render (id.map Seg.plain) = id := by
  induction id with
  | nil => rfl
  | cons c cs ih => rw [List.map_cons, render_plain, ih]

theorem render_append (a b : List Seg) : render (a ++ b) = render a ++ render b := by
  simp [render]

theorem render_flatSegs (segs : List Seg) : render (flatSegs segs) = stripRender segs := by
  induction segs with
  | nil => rfl
  | cons s rest ih =>
    have h1 : flatSegs (s :: rest) = s.flat ++ flatSegs rest := by simp [flatSegs]
    have h2 : stripRender (s :: rest) = s.strip ++ stripRender rest := by simp [stripRender]
    rw [h1, h2, render_append, ih]
    cases s with
    | plain c => simp [Seg.flat, Seg.strip, render, Seg.render]
    | group body => simp [Seg.flat, Seg.strip, render, Seg.render]
    | mention id => simp [Seg.flat, Seg.strip, render_plains]

theorem flatSegs_wf (segs : List Seg) (hwf : ∀ s ∈ segs, s.wf = true) :
    ∀ s ∈ flatSegs segs, s.wf = true := by
  intro s hs
  unfold flatSegs at hs
  obtain ⟨l, hl, hsl⟩ := List.mem_flatten.1 hs
  obtain ⟨s0, hs0, rfl⟩ := List.mem_map.1 hl
  have h0 := hwf s0 hs0
  cases s0 with
  | plain c =>
    simp only [Seg.flat, List.mem_singleton] at hsl
    subst hsl; exact h0
  | group body =>
    simp only [Seg.flat, List.mem_singleton] at hsl
    subst hsl; exact h0
  | mention id =>
    simp only [Seg.flat, List.mem_map] at hsl
    obtain ⟨c, hc, rfl⟩ := hsl
    have hid : id.all isIdChar = true := by simpa [Seg.wf] using h0
    have := id_noLt id hid c hc
    simpa [Seg.wf] using this

theorem tokens_plains (n : Nat) (id : Str) (rest : List Seg) :
    tokens n (id.map Seg.plain ++ rest) = tokens n rest := by
  induction id with
  | nil => rfl
  | cons c cs ih => simpa [tokens] using ih

theorem tokens_flatSegs (n : Nat) (segs : List Seg) : tokens n (flatSegs segs) = [] := by
  induction segs with
  | nil => rfl
  | cons s rest ih =>
    have h1 : flatSegs (s :: rest) = s.flat ++ flatSegs rest := by simp [flatSegs]
    rw [h1]
    cases s with
    | plain c => simpa [Seg.flat, tokens] using ih
    | group body => simpa [Seg.flat, tokens] using ih
    | mention id => simpa [Seg.flat, tokens_plains] using ih

/-- A stripped text holds no match of either regular expression. -/
theorem matchAll_stripRender (n : Nat) (segs : List Seg) (hwf : ∀ s ∈ segs, s.wf = true) :
    matchAll n (stripRender segs) = [] := by
  unfold matchAll
  rw [← render_flatSegs, matchAllFrom_render n _ (flatSegs_wf segs hwf), tokens_flatSegs]

theorem removeMentionTag_of_noMatch (t : Str) (h : matchAll 0 t = []) :
    removeMentionTag t = t := by
  simp [removeMentionTag, h]

theorem preprocessUserMentions_of_noMatch (web : Web) (t : Str) (h : matchAll 1 t = []) :
    preprocessUserMentions web t = some t := by
  simp [preprocessUserMentions, h]

theorem removeMentionTag_idem_render (segs : List Seg) (hwf : ∀ s ∈ segs, s.wf = true) :
    removeMentionTag (removeMentionTag (render segs)) = removeMentionTag (render segs) := by
  rw [removeMentionTag_render segs hwf]
  exact removeMentionTag_of_noMatch _ (matchAll_stripRender 0 segs hwf)

theorem render_subst_mention (web : Web) (id : Str) (h : id ≠ []) :
    (Seg.subst web (Seg.mention id)).render = '<' :: '@' :: (displayName web id ++ ['>']) := by
  simp only [Seg.subst, if_neg h]
  split <;> simp [Seg.render]

theorem id_head (id : Str) (hid : id.all isIdChar = true) (hne : id ≠ []) :
    ∃ p ps, id = p :: ps ∧ p ≠ '<' ∧ p ≠ '@' := by
  cases id with
  | nil => exact absurd rfl hne
  | cons p ps =>
    refine ⟨p, ps, rfl, ?_, ?_⟩
    · exact id_noLt _ hid p (List.mem_cons_self _ _)
    · intro h
      subst h
      simp [isIdChar_at] at hid

theorem splitOnFirst_id (done id b : Str) (hid : id.all isIdChar = true) (hne : id ≠ [])
    (hocc : occursIn id done = false) :
    splitOnFirst id (done ++ '<' :: '@' :: (id ++ b)) = some (done ++ ['<', '@'], b) := by
  obtain ⟨p, ps, rfl, hp1, hp2⟩ := id_head id hid hne
  induction done with
  | nil =>
    rw [List.nil_append, splitOnFirst_cons_ne p '<' ps _ (Ne.symm hp1),
      splitOnFirst_cons_ne p '@' ps _ (Ne.symm hp2), splitOnFirst_here]
    rfl
  | cons c a ih =>
    simp only [occursIn, Bool.or_eq_false_iff] at hocc
    have hstart : startsWith (p :: ps) (c :: (a ++ '<' :: '@' :: ((p :: ps) ++ b))) = false := by
      cases hs : startsWith (p :: ps) (c :: (a ++ '<' :: '@' :: ((p :: ps) ++ b))) with
      | false => rfl
      | true =>
        obtain ⟨r, hr⟩ := (startsWith_iff _ _).1 hs
        have hr' : (c :: a) ++ ('<' :: '@' :: ((p :: ps) ++ b)) = (p :: ps) ++ r := hr
        rcases List.append_eq_append_iff.1 hr' with ⟨a', h1, h2⟩ | ⟨c', h1, _⟩
        · -- the pattern reaches the end of the prefix: it is the prefix or contains `<`
          cases a' with
          | nil =>
            have : startsWith (p :: ps) (c :: a) = true :=
              (startsWith_iff _ _).2 ⟨[], by simpa using h1.symm⟩
            rw [hocc.1] at this
            cases this
          | cons x a'' =>
            simp only [List.cons_append, List.cons.injEq] at h2
            have hmem : '<' ∈ p :: ps := by
              rw [h1, h2.1]
              simp
            exact absurd rfl (id_noLt _ hid _ hmem)
        · -- the pattern lies in the prefix
          have : startsWith (p :: ps) (c :: a) = true := (startsWith_iff _ _).2 ⟨c', h1⟩
          rw [hocc.1] at this
          cases this
    rw [List.cons_append, splitOnFirst, if_neg (by rw [hstart]; simp), ih hocc.2]
    rfl

theorem tokens_spec (n : Nat) (segs : List Seg) (hwf : ∀ s ∈ segs, s.wf = true) :
    ∀ t ∈ tokens n segs, ∃ id, t = ('<' :: '@' :: (id ++ ['>']), id) ∧
      id.all isIdChar = true ∧ n ≤ id.length ∧ Seg.mention id ∈ segs := by
  induction segs with
  | nil => intro t ht; cases ht
  | cons s rest ih =>
    intro t ht
    have ihr := ih (fun s hs => hwf s (List.mem_cons_of_mem _ hs))
    have lift : (∃ id, t = ('<' :: '@' :: (id ++ ['>']), id) ∧
        id.all isIdChar = true ∧ n ≤ id.length ∧ Seg.mention id ∈ rest) →
        ∃ id, t = ('<' :: '@' :: (id ++ ['>']), id) ∧
        id.all isIdChar = true ∧ n ≤ id.length ∧ Seg.mention id ∈ s :: rest := by
      rintro ⟨id, h1, h2, h3, h4⟩
      exact ⟨id, h1, h2, h3, List.mem_cons_of_mem _ h4⟩
    cases s with
    | plain c => exact lift (ihr t (by simpa [tokens] using ht))
    | group body => exact lift (ihr t (by simpa [tokens] using ht))
    | mention id =>
      have hid : id.all isIdChar = true := by
        simpa [Seg.wf] using hwf _ (List.mem_cons_self _ _)
      by_cases hn : n ≤ id.length
      · rw [tokens, if_pos hn] at ht
        rcases List.mem_cons.1 ht with ht | ht
        · exact ⟨id, ht, hid, hn, List.mem_cons_self _ _⟩
        · exact lift (ihr t ht)
      · rw [tokens, if_neg hn] at ht
        exact lift (ihr t ht)

theorem regexExec_token (n : Nat) (id : Str) (hid : id.all isIdChar = true) (hn : n ≤ id.length) :
    regexExec n ('<' :: '@' :: (id ++ ['>'])) = some ('<' :: '@' :: (id ++ ['>']), id) := by
  unfold regexExec matchAll
  rw [matchAllFrom, matchHere_mention n id [] hid, if_pos hn]
  rfl

/-- `preprocessUserMentions` as one expression: with no match, `Promise.all` of nothing and
no replacement. -/
theorem preprocessUserMentions_eq (web : Web) (text : Str) :
    preprocessUserMentions web text =
      (promiseAll (((matchAll 1 text).map Prod.fst).map (fun raw_id =>
        match regexExec 1 raw_id with
        | some result => getUser web result.2
        | none => none))).map
      (fun users =>
        users.foldl (fun text user => jsReplace text user.id (getNameFromUser user)) text) := by
  unfold preprocessUserMentions
  cases h : (matchAll 1 text).map Prod.fst with
  | nil => simp [promiseAll]
  | cons a r =>
    simp only
    cases promiseAll (List.map (fun raw_id =>
        match regexExec 1 raw_id with
        | some result => getUser web result.2
        | none => none) (a :: r)) <;> rfl

theorem resolves_tail (web : Web) (s : Seg) (rest : List Seg) (h : Resolves web (s :: rest)) :
    Resolves web rest :=
  fun id hid hne => h id (List.mem_cons_of_mem _ hid) hne

theorem cleanName_noDollar (name : Str) (h : cleanName name = true) : ∀ c ∈ name, c ≠ '$' := by
  intro c hc
  have := List.all_eq_true.1 h c hc
  simp only [Bool.and_eq_true, bne_iff_ne, ne_eq] at this
  exact this.2

theorem render_append_cons (web : Web) (id : Str) (hne : id ≠ []) (rest : List Seg) :
    render (Seg.subst web (Seg.mention id) :: rest.map (Seg.subst web)) =
      '<' :: '@' :: (displayName web id ++ '>' :: render (rest.map (Seg.subst web))) := by
  have h : render (Seg.subst web (Seg.mention id) :: rest.map (Seg.subst web)) =
      (Seg.subst web (Seg.mention id)).render ++ render (rest.map (Seg.subst web)) := by
    simp [render]
  rw [h, render_subst_mention web id hne]
  simp

theorem preprocess_fold (web : Web) (segs : List Seg) (done : Str)
    (hwf : ∀ s ∈ segs, s.wf = true) (hres : Resolves web segs)
    (hocc : noEarlierId web done segs = true) :
    ∃ users, promiseAll ((tokens 1 segs).map (fun t => getUser web t.2)) = some users ∧
      users.foldl (fun text user => jsReplace text user.id (getNameFromUser user))
        (done ++ render segs) = done ++ render (segs.map (Seg.subst web)) := by
  induction segs generalizing done with
  | nil => exact ⟨[], rfl, rfl⟩
  | cons s rest ih =>
    have hrest : ∀ s ∈ rest, s.wf = true := fun s hs => hwf s (List.mem_cons_of_mem _ hs)
    have hres' := resolves_tail web s rest hres
    cases s with
    | plain c =>
      rw [noEarlierId] at hocc
      obtain ⟨users, h1, h2⟩ := ih (done ++ [c]) hrest hres' hocc
      refine ⟨users, by simpa [tokens] using h1, ?_⟩
      rw [render_plain, List.map_cons, Seg.subst, render_plain]
      simpa using h2
    | group body =>
      rw [noEarlierId] at hocc
      obtain ⟨users, h1, h2⟩ := ih (done ++ '<' :: (body ++ ['>'])) hrest hres' hocc
      refine ⟨users, by simpa [tokens] using h1, ?_⟩
      rw [render_group, List.map_cons, Seg.subst, render_group]
      simpa using h2
    | mention id =>
      rw [noEarlierId, Bool.and_eq_true] at hocc
      obtain ⟨hocc1, hocc2⟩ := hocc
      have hid : id.all isIdChar = true := by
        simpa [Seg.wf] using hwf _ (List.mem_cons_self _ _)
      obtain ⟨users, h1, h2⟩ := ih _ hrest hres' hocc2
      by_cases hne : id = []
      · subst hne
        refine ⟨users, by simpa [tokens] using h1, ?_⟩
        have hs : Seg.subst web (Seg.mention []) = Seg.mention [] := by simp [Seg.subst]
        rw [hs] at h2
        rw [render_mention, List.map_cons, hs, render_mention]
        simpa [Seg.render] using h2
      · obtain ⟨u, hu, huid, hclean⟩ := hres id (List.mem_cons_self _ _) hne
        have hname : displayName web id = getNameFromUser u := by simp [displayName, hu]
        have hlen : 1 ≤ id.length := by
          cases id with
          | nil => exact absurd rfl hne
          | cons _ _ => simp
        have hno : occursIn id done = false := by
          simpa [hne] using hocc1
        refine ⟨u :: users, ?_, ?_⟩
        · rw [tokens, if_pos hlen]
          simp [promiseAll, hu, h1]
        · rw [render_mention, List.foldl_cons, huid,
            jsReplace_of_split _ _ _ _ _ (splitOnFirst_id done id ('>' :: render rest) hid hne hno)
              (cleanName_noDollar _ hclean)]
          rw [render_subst_mention web id hne, hname] at h2
          rw [List.map_cons, render_append_cons web id hne rest, hname]
          simpa using h2

theorem preprocess_render (web : Web) (segs : List Seg)
    (hwf : ∀ s ∈ segs, s.wf = true) (hres : Resolves web segs)
    (hocc : noEarlierId web [] segs = true) :
    preprocessUserMentions web (render segs) = some (render (segs.map (Seg.subst web))) := by
  rw [preprocessUserMentions_eq]
  have hm : matchAll 1 (render segs) = tokens 1 segs := matchAllFrom_render 1 segs hwf
  rw [hm, List.map_map]
  have hcongr : (tokens 1 segs).map ((fun raw_id =>
      match regexExec 1 raw_id with
      | some result => getUser web result.2
      | none => none) ∘ Prod.fst) = (tokens 1 segs).map (fun t => getUser web t.2) := by
    apply List.map_congr_left
    intro t ht
    obtain ⟨id, rfl, hid, hn, _⟩ := tokens_spec 1 segs hwf t ht
    simp only [Function.comp, regexExec_token 1 id hid hn]
  rw [hcongr]
  obtain ⟨users, h1, h2⟩ := preprocess_fold web segs [] hwf hres hocc
  rw [h1]
  simpa using h2

theorem subst_wf (web : Web) (segs : List Seg)
    (hwf : ∀ s ∈ segs, s.wf = true) (hres : Resolves web segs) :
    ∀ s ∈ segs.map (Seg.subst web), s.wf = true := by
  intro s hs
  obtain ⟨s0, hs0, rfl⟩ := List.mem_map.1 hs
  have h0 := hwf s0 hs0
  cases s0 with
  | plain c => exact h0
  | group body => exact h0
  | mention id =>
    by_cases hne : id = []
    · subst hne
      simp [Seg.subst, Seg.wf]
    · obtain ⟨u, hu, _, hclean⟩ := hres id hs0 hne
      have hname : displayName web id = getNameFromUser u := by simp [displayName, hu]
      simp only [Seg.subst, if_neg hne]
      by_cases hall : (displayName web id).all isIdChar = true
      · simp only [hall, if_true, Seg.wf]
      · simp only [hall, if_false, Seg.wf, isMentionBody, Bool.false_eq_true]
        rw [hname] at hall ⊢
        simp only [List.all_cons, beq_self_eq_true, Bool.true_and, Bool.and_eq_true,
          Bool.not_eq_true', bne_iff_ne, ne_eq]
        refine ⟨⟨⟨by decide, by decide⟩, ?_⟩, by simp [hall]⟩
        rw [List.all_eq_true]
        intro c hc
        have := List.all_eq_true.1 hclean c hc
        simp only [Bool.and_eq_true, bne_iff_ne, ne_eq] at this
        simp [this.1.1, this.1.2]

theorem strip_subst (web : Web) (segs : List Seg) :
    stripRender (segs.map (Seg.subst web)) = normRender web segs := by
  unfold stripRender normRender
  rw [List.map_map]
  congr 1
  apply List.map_congr_left
  intro s _
  cases s with
  | plain c => rfl
  | group body => rfl
  | mention id =>
    simp only [Function.comp, Seg.subst, Seg.norm]
    by_cases hne : id = []
    · simp [hne, Seg.strip]
    · simp only [if_neg hne]
      by_cases hall : (displayName web id).all isIdChar = true
      · simp [hall, Seg.strip]
      · simp [hall, Seg.strip]

/-- C1, as stated, fails: `U123` resolves to the display name `Alice`, and
`hello <@U123>` normalizes to `hello <@Alice>`, not to `hello Alice`: the delimiters of the
mention token stay.  Two more failures: in `U123 <@U123>` the first occurrence of the id is
replaced, not the token, which gives `Alice U123`; and the display name `$&!` is a
replacement pattern, so that `hi <@U9>` gives `hi <@U9!>`. -/
theorem C1_counterexample :
    normalize exLocalWeb "hello <@U123>".toList = some "hello <@Alice>".toList ∧
    getUser exLocalWeb "U123".toList = some exAlice ∧
    getNameFromUser exAlice = "Alice".toList ∧
    normalize exLocalWeb "hello <@U123>".toList ≠ some "hello Alice".toList ∧
    normalize exLocalWeb "U123 <@U123>".toList = some "Alice U123".toList ∧
    getUser exDollarWeb "U9".toList = some exDollar ∧
    getNameFromUser exDollar = "$&!".toList ∧
    normalize exDollarWeb "hi <@U9>".toList = some "hi <@U9!>".toList := by
  decide

/-- C1 (amended): for every text made of characters other than `<`, bracket groups without
nested brackets and mention tokens, and every identity cache that resolves the ids
mentioned in it (to users carrying that id, whose display names hold no `<`, `>` or `$`),
no id occurring in the text, as substituted so far, before its own token: `normalize`
resolves, it replaces the id
inside every mention token by the display name, it strips the delimiters of a token exactly
when the name inside consists of characters of `[A-Z0-9]` (or is empty), and the result
holds no substring matched by `<@[A-Z0-9]*>`. -/
theorem C1_normalize (web : Web) (segs : List Seg)
    (hwf : ∀ s ∈ segs, s.wf = true) (hres : Resolves web segs)
    (hocc : noEarlierId web [] segs = true) :
    normalize web (render segs) = some (normRender web segs) ∧
    matchAll 0 (normRender web segs) = [] := by
  have hsubst := subst_wf web segs hwf hres
  constructor
  · unfold normalize
    rw [preprocess_render web segs hwf hres hocc, Option.map_some',
      removeMentionTag_render _ hsubst, strip_subst]
  · rw [← strip_subst]
    exact matchAll_stripRender 0 _ hsubst

theorem exHello_resolves : Resolves exLocalWeb exHello := by
  intro id hid _
  have : id = "U123".toList := by
    simp only [exHello, List.mem_cons, List.mem_singleton, reduceCtorEq, false_or,
      Seg.mention.injEq, List.not_mem_nil, or_false] at hid
    exact hid
  subst this
  exact ⟨exAlice, by decide, by decide, by decide⟩

theorem C1_normalize_witness :
    render exHello = "hello <@U123>".toList ∧
    normRender exLocalWeb exHello = "hello <@Alice>".toList ∧
    normalize exLocalWeb (render exHello) = some (normRender exLocalWeb exHello) :=
  ⟨by decide, by decide,
    (C1_normalize exLocalWeb exHello (by decide) exHello_resolves (by decide)).1⟩

/-! ## The correlator: the first match and its warnings -/

theorem rawMessages_resolved (web : Web) (l : List Message)
    (h : ∀ x ∈ l, ∃ t, searchText web x.text = some t) :
    promiseAll (rawMessages web l) = some (l.map (normMsg web)) := by
  induction l with
  | nil => rfl
  | cons a r ih =>
    obtain ⟨t, ht⟩ := h a (List.mem_cons_self _ _)
    have ihr := ih (fun x hx => h x (List.mem_cons_of_mem _ hx))
    unfold rawMessages at ihr ⊢
    cases hp : preprocessUserMentions web a.text with
    | none => simp [searchText, normalize, hp] at ht
    | some t0 =>
      simp only [List.map_cons, hp, Option.map_some', promiseAll, ihr]
      simp [normMsg, normalize, hp]

theorem matchesText_normMsg (web : Web) (text : Expected) (x : Message)
    (h : ∃ t, searchText web x.text = some t) :
    (text = Expected.null ∨ Expected.str (removeMentionTag (normMsg web x).text) = text) ↔
      matchesText web text x := by
  obtain ⟨t, ht⟩ := h
  unfold matchesText
  cases hn : normalize web x.text with
  | none => simp [searchText, hn] at ht
  | some t0 =>
    simp only [normMsg, searchText, hn, Option.getD_some, Option.map_some', Option.some.injEq]

theorem searchLoop_first (text : Expected) (start_ts end_ts : ℚ) (l1 l2 : List Message)
    (m : Message)
    (h1 : ∀ x ∈ l1, ¬ (text = Expected.null ∨ Expected.str (removeMentionTag x.text) = text))
    (hm : text = Expected.null ∨ Expected.str (removeMentionTag m.text) = text) :
    searchLoop text start_ts end_ts (l1 ++ m :: l2) =
      (some { m with text := removeMentionTag m.text }, warningsFor start_ts end_ts m.ts) := by
  induction l1 with
  | nil =>
    rw [List.nil_append, searchLoop]
    simp only [hm, if_true]
    rfl
  | cons a r ih =>
    rw [List.cons_append, searchLoop]
    simp only [h1 a (List.mem_cons_self _ _), if_false]
    exact ih (fun x hx => h1 x (List.mem_cons_of_mem _ hx))

theorem searchMessage_first (side : Side) (web : Web) (channel_id : Str) (text : Expected)
    (start_ts end_ts : ℚ) (before after : List Message) (message : Message) (s : Str)
    (hresp : web.channels_history channel_id start_ts end_ts = before ++ message :: after)
    (hres : ∀ x ∈ before ++ message :: after, ∃ t, searchText web x.text = some t)
    (hbefore : ∀ x ∈ before, ¬ matchesText web text x)
    (hs : searchText web message.text = some s)
    (hmatch : text = Expected.null ∨ text = Expected.str s) :
    searchMessage side web channel_id text start_ts end_ts =
      (some { message with text := s },
        Effect.request side (Request.channels_history channel_id start_ts end_ts) ::
          (warningsFor start_ts end_ts message.ts).map Effect.log) := by
  have hm : matchesText web text message := by
    rcases hmatch with h | h
    · exact Or.inl h
    · exact Or.inr (by rw [hs, h]; rfl)
  have hmres : ∃ t, searchText web message.text = some t := ⟨s, hs⟩
  unfold searchMessage
  simp only [List.reverse_reverse, hresp, rawMessages_resolved web _ hres, List.map_append,
    List.map_cons]
  rw [searchLoop_first text start_ts end_ts (before.map (normMsg web)) (after.map (normMsg web))
    (normMsg web message) ?_ ((matchesText_normMsg web text message hmres).2 hm)]
  · have ht : removeMentionTag (normMsg web message).text = s := by
      cases hn : normalize web message.text with
      | none => simp [searchText, hn] at hs
      | some t0 =>
        simp only [searchText, hn, Option.map_some', Option.some.injEq] at hs
        simp [normMsg, hn, hs]
    simp only [ht]
    rfl
  · intro x hx hc
    obtain ⟨x0, hx0, rfl⟩ := List.mem_map.1 hx
    exact hbefore x0 hx0 ((matchesText_normMsg web text x0
      (hres x0 (List.mem_append_left _ hx0))).1 hc)

/-- C6: for every search whose history response resolves and holds a message that matches
(`message`, the first in the order of the scan, with the timestamp `ts`), `searchMessage`
resolves with that message, whether or not it warns, and its trace is the history request
followed by the warnings of `warningsFor`: it logs a tolerance warning if and only if
`start_ts ≠ end_ts` and `|ts - start_ts| < TS_DIFF_TOLERANCE` or
`|ts - end_ts| < TS_DIFF_TOLERANCE`; a distance equal to the tolerance logs no warning for
that bound. -/
theorem C6_tolerance_warning (side : Side) (web : Web) (channel_id : Str) (text : Expected)
    (start_ts end_ts : ℚ) (before after : List Message) (message : Message) (s : Str)
    (hresp : web.channels_history channel_id start_ts end_ts = before ++ message :: after)
    (hres : ∀ x ∈ before ++ message :: after, ∃ t, searchText web x.text = some t)
    (hbefore : ∀ x ∈ before, ¬ matchesText web text x)
    (hs : searchText web message.text = some s)
    (hmatch : text = Expected.null ∨ text = Expected.str s) :
    (searchMessage side web channel_id text start_ts end_ts).1 =
      some { message with text := s } ∧
    (searchMessage side web channel_id text start_ts end_ts).2 =
      Effect.request side (Request.channels_history channel_id start_ts end_ts) ::
        (warningsFor start_ts end_ts message.ts).map Effect.log ∧
    ((∃ e ∈ (searchMessage side web channel_id text start_ts end_ts).2, e.isWarning = true) ↔
      (start_ts ≠ end_ts ∧ (|message.ts - start_ts| < TS_DIFF_TOLERANCE ∨
        |message.ts - end_ts| < TS_DIFF_TOLERANCE))) ∧
    (|message.ts - start_ts| = TS_DIFF_TOLERANCE → ∀ d,
      Effect.log (Log.warn_start_ts_too_small d) ∉
        (searchMessage side web channel_id text start_ts end_ts).2) ∧
    (|message.ts - end_ts| = TS_DIFF_TOLERANCE → ∀ d,
      Effect.log (Log.warn_end_ts_too_small d) ∉
        (searchMessage side web channel_id text start_ts end_ts).2) := by
  rw [searchMessage_first side web channel_id text start_ts end_ts before after message s
    hresp hres hbefore hs hmatch]
  refine ⟨rfl, rfl, ?_, ?_, ?_⟩
  all_goals simp only
  all_goals unfold warningsFor
  · constructor
    · rintro ⟨e, he, hw⟩
      by_cases h1 : start_ts ≠ end_ts ∧ |message.ts - start_ts| < TS_DIFF_TOLERANCE
      · exact ⟨h1.1, Or.inl h1.2⟩
      · by_cases h2 : start_ts ≠ end_ts ∧ |message.ts - end_ts| < TS_DIFF_TOLERANCE
        · exact ⟨h2.1, Or.inr h2.2⟩
        · simp only [h1, h2, if_false, List.append_nil, List.map_nil, List.mem_singleton] at he
          subst he
          simp [Effect.isWarning] at hw
    · rintro ⟨hne, hd | hd⟩
      · refine ⟨Effect.log (Log.warn_start_ts_too_small |message.ts - start_ts|), ?_, rfl⟩
        simp [hne, hd]
      · refine ⟨Effect.log (Log.warn_end_ts_too_small |message.ts - end_ts|), ?_, rfl⟩
        simp [hne, hd]
  · intro heq d hmem
    have hlt : ¬ |message.ts - start_ts| < TS_DIFF_TOLERANCE := by rw [heq]; exact lt_irrefl _
    by_cases h2 : start_ts ≠ end_ts ∧ |message.ts - end_ts| < TS_DIFF_TOLERANCE
    · simp [hlt, h2] at hmem
    · simp [hlt, h2] at hmem
  · intro heq d hmem
    have hlt : ¬ |message.ts - end_ts| < TS_DIFF_TOLERANCE := by rw [heq]; exact lt_irrefl _
    by_cases h1 : start_ts ≠ end_ts ∧ |message.ts - start_ts| < TS_DIFF_TOLERANCE
    · simp [hlt, h1] at hmem
    · simp [hlt, h1] at hmem

theorem C6_tolerance_warning_witness :
    (searchMessage Side.remote_web exRemoteWeb "R".toList (Expected.str "root".toList)
      997 1003).1 = some { ts := 1002, text := "root".toList, attachments := none } ∧
    ((∃ e ∈ (searchMessage Side.remote_web exRemoteWeb "R".toList (Expected.str "root".toList)
        997 1003).2, e.isWarning = true) ↔
      ((997 : ℚ) ≠ 1003 ∧ (|(1002 : ℚ) - 997| < TS_DIFF_TOLERANCE ∨
        |(1002 : ℚ) - 1003| < TS_DIFF_TOLERANCE))) :=
  have h := C6_tolerance_warning Side.remote_web exRemoteWeb "R".toList
    (Expected.str "root".toList) 997 1003 []
    [{ ts := 1001, text := "root".toList, attachments := none }]
    { ts := 1002, text := "root".toList, attachments := none } "root".toList
    rfl
    (by
      intro x hx
      simp only [List.nil_append, List.mem_cons, List.mem_singleton, List.not_mem_nil,
        or_false] at hx
      rcases hx with hx | hx <;> subst hx <;> exact ⟨"root".toList, by decide⟩)
    (by intro x hx; cases hx) (by decide) (Or.inr rfl)
  ⟨h.1, h.2.2.1⟩

/-! ## The dispatcher: thread replies and reactions -/

/-- The trace of a thread reply whose sender resolves and whose root is found. -/
theorem onMessage_thread_reply_trace (p : Portal) (event : MessageEvent) (ts : ℚ) (user : User)
    (message : Message)
    (hch : event.channel = p.local_channel_id) (hsub : event.subtype = none)
    (hts : event.thread_ts = some ts)
    (huser : getUser p.local_web event.user = some user)
    (hroot : (searchMessage Side.local_web p.local_web p.local_channel_id Expected.null ts ts).1
      = some message) :
    onMessage p event =
      (searchMessage Side.local_web p.local_web p.local_channel_id Expected.null ts ts).2 ++
      (searchMessage Side.remote_web p.remote_web p.remote_channel_id
        (Expected.str message.text) (message.ts - START_TS_DIFF)
        (message.ts - START_TS_DIFF + END_TS_DIFF)).2 ++
      (match (searchMessage Side.remote_web p.remote_web p.remote_channel_id
          (Expected.str message.text) (message.ts - START_TS_DIFF)
          (message.ts - START_TS_DIFF + END_TS_DIFF)).1 with
        | none => []
        | some thread_message =>
          [Effect.request Side.remote_web (Request.chat_postMessage p.remote_channel_id
            event.text user.profile.image_48 (getNameFromUser user) (some thread_message.ts))]) := by
  unfold onMessage
  rw [if_neg (by simp [hch]), hsub]
  unfold onPlainMessage
  simp only [hts, huser, hroot]
  split <;> simp_all

/-- The trace of a reaction whose message is found on both sides. -/
theorem reactionHandler_trace (p : Portal) (event : ReactionEvent) (message remote_message : Message)
    (emoji_attachment : Attachment)
    (hch : event.item_channel = p.local_channel_id)
    (hfound : (searchMessage Side.local_web p.local_web p.local_channel_id Expected.null
      event.item_ts event.item_ts).1 = some message)
    (hemoji : generateEmojiAttachment p.local_web
      (p.local_web.reactions_get p.local_channel_id message.ts) = some emoji_attachment)
    (hremote : (searchMessage Side.remote_web p.remote_web p.remote_channel_id
      (Expected.str message.text) (event.item_ts - START_TS_DIFF)
      (event.item_ts + END_TS_DIFF)).1 = some remote_message) :
    reactionHandler p event =
      (searchMessage Side.local_web p.local_web p.local_channel_id Expected.null
        event.item_ts event.item_ts).2 ++
      [Effect.request Side.local_web (Request.reactions_get p.local_channel_id message.ts)] ++
      (searchMessage Side.remote_web p.remote_web p.remote_channel_id
        (Expected.str message.text) (event.item_ts - START_TS_DIFF)
        (event.item_ts + END_TS_DIFF)).2 ++
      [Effect.request Side.remote_web (Request.chat_update p.remote_channel_id
        (some remote_message.text) remote_message.ts
        (upsertEmoji emoji_attachment (remote_message.attachments.getD [])))] := by
  unfold reactionHandler
  rw [if_neg (by simp [hch])]
  simp only [hfound, hemoji, hremote]

theorem searchMessage_of_empty (side : Side) (web : Web) (channel_id : Str) (text : Expected)
    (start_ts end_ts : ℚ) (h : web.channels_history channel_id start_ts end_ts = []) :
    (searchMessage side web channel_id text start_ts end_ts).1 = none := by
  unfold searchMessage
  rw [h]
  rfl

theorem searchMessage_no_mutation (side : Side) (web : Web) (channel_id : Str) (text : Expected)
    (start_ts end_ts : ℚ) :
    ∀ e ∈ (searchMessage side web channel_id text start_ts end_ts).2, e.isMutation = false := by
  obtain ⟨logs, hl⟩ := searchMessage_effects side web channel_id text start_ts end_ts
  rw [hl]
  intro e he
  rcases List.mem_cons.1 he with he | he
  · subst he; rfl
  · obtain ⟨l, _, hl⟩ := List.mem_map.1 he
    subst hl; rfl

theorem exDelayed_root :
    (searchMessage Side.local_web exDelayedPortal.local_web exDelayedPortal.local_channel_id
      Expected.null 1000 1000).1 = some { ts := 1000, text := "root".toList, attachments := none } := by
  decide

/-- C3 fails on the code: the thread root is at `1000` and its mirrored copy on the
opposite side at `1004`, inside the window `[1000 - START_TS_DIFF,
1000 + START_TS_DIFF + END_TS_DIFF]` of the claim.  The thread reply searches `[997, 1003]`
(`end_ts` is computed from `start_ts`, line 290), finds nothing and posts nothing; the
reaction handler, at the same timestamps, searches `[997, 1006]` and updates the copy. -/
theorem C3_thread_reply_misses_forwarded_copy :
    (searchMessage Side.local_web exDelayedPortal.local_web exDelayedPortal.local_channel_id
      Expected.null 1000 1000).1 =
        some { ts := 1000, text := "root".toList, attachments := none } ∧
    exDelayedRemoteWeb.channels_history "R".toList
      (1000 - START_TS_DIFF) (1000 + START_TS_DIFF + END_TS_DIFF) = [exCopy] ∧
    Effect.request Side.remote_web (Request.channels_history "R".toList 997 1003) ∈
      onMessage exDelayedPortal exThreadReply ∧
    (∀ e ∈ onMessage exDelayedPortal exThreadReply, e.isMutation = false) ∧
    Effect.request Side.remote_web (Request.channels_history "R".toList 997 1006) ∈
      reactionHandler exDelayedPortal exReaction ∧
    Effect.request Side.remote_web (Request.chat_update "R".toList (some "root".toList) 1004
      [exSummary]) ∈ reactionHandler exDelayedPortal exReaction := by
  have h997 : ((1000 : ℚ) - START_TS_DIFF) = 997 := by norm_num [START_TS_DIFF]
  have h1003 : ((1000 : ℚ) - START_TS_DIFF + END_TS_DIFF) = 1003 := by
    norm_num [START_TS_DIFF, END_TS_DIFF]
  have h1006 : ((1000 : ℚ) + END_TS_DIFF) = 1006 := by norm_num [END_TS_DIFF]
  have hk := onMessage_thread_reply_trace exDelayedPortal exThreadReply 1000 exAlice _
    rfl rfl rfl (by decide) exDelayed_root
  have hempty : exDelayedRemoteWeb.channels_history "R".toList 997 1003 = [] := by
    simp only [exDelayedRemoteWeb]
    norm_num
  have hfull : exDelayedRemoteWeb.channels_history "R".toList 997 1006 = [exCopy] := by
    simp only [exDelayedRemoteWeb]
    norm_num
  have hnone := searchMessage_of_empty Side.remote_web exDelayedRemoteWeb "R".toList
    (Expected.str "root".toList) 997 1003 hempty
  have hsome := searchMessage_first Side.remote_web exDelayedRemoteWeb "R".toList
    (Expected.str "root".toList) 997 1006 [] [] exCopy "root".toList hfull
    (by
      intro x hx
      simp only [List.nil_append, List.mem_singleton] at hx
      subst hx
      exact ⟨"root".toList, by decide⟩)
    (by intro x hx; cases hx) (by decide) (Or.inr rfl)
  have hr := reactionHandler_trace exDelayedPortal exReaction
    { ts := 1000, text := "root".toList, attachments := none } exCopy exSummary rfl
    exDelayed_root (by decide)
    (by
      show (searchMessage Side.remote_web exDelayedRemoteWeb "R".toList
        (Expected.str "root".toList) ((1000 : ℚ) - START_TS_DIFF) ((1000 : ℚ) + END_TS_DIFF)).1 = _
      rw [h997, h1006, hsome]
      rfl)
  dsimp only [exDelayedPortal, exReaction] at hk hr
  rw [h1003, h997] at hk
  rw [h1006, h997] at hr
  simp only [hnone, List.append_nil] at hk
  have hk' : onMessage exDelayedPortal exThreadReply =
      (searchMessage Side.local_web exLocalWeb "L".toList Expected.null 1000 1000).2 ++
      (searchMessage Side.remote_web exDelayedRemoteWeb "R".toList
        (Expected.str "root".toList) 997 1003).2 := hk
  have hr' : reactionHandler exDelayedPortal exReaction =
      (searchMessage Side.local_web exLocalWeb "L".toList Expected.null 1000 1000).2 ++
        [Effect.request Side.local_web (Request.reactions_get "L".toList 1000)] ++
      (searchMessage Side.remote_web exDelayedRemoteWeb "R".toList
        (Expected.str "root".toList) 997 1006).2 ++
      [Effect.request Side.remote_web (Request.chat_update "R".toList (some "root".toList) 1004
        [exSummary])] := hr
  refine ⟨exDelayed_root, ?_, ?_, ?_, ?_, ?_⟩
  · simp only [exDelayedRemoteWeb, START_TS_DIFF, END_TS_DIFF]
    norm_num
  · rw [hk']
    exact List.mem_append_right _ (searchMessage_request_mem _ _ _ _ _ _)
  · rw [hk']
    intro e he
    rcases List.mem_append.1 he with he | he
    · exact searchMessage_no_mutation _ _ _ _ _ _ e he
    · exact searchMessage_no_mutation _ _ _ _ _ _ e he
  · rw [hr']
    exact List.mem_append_left _ (List.mem_append_right _ (searchMessage_request_mem _ _ _ _ _ _))
  · rw [hr']
    exact List.mem_append_right _ (List.mem_singleton.2 rfl)

/-! ## The normalizer: bracket structure and idempotence -/

theorem scanBrackets_append (q : Bool) (a b : Str) :
    scanBrackets q (a ++ b) = (scanBrackets q a).bind (fun q' => scanBrackets q' b) := by
  induction a generalizing q with
  | nil => cases q <;> simp [scanBrackets]
  | cons c r ih =>
    cases q
    · simp only [List.cons_append, scanBrackets]
      split <;> exact ih _
    · simp only [List.cons_append, scanBrackets]
      split
      · rfl
      · split <;> exact ih _

theorem scanBrackets_free (q : Bool) (x : Str) (h : ∀ c ∈ x, c ≠ '<' ∧ c ≠ '>') :
    scanBrackets q x = some q := by
  induction x with
  | nil => cases q <;> rfl
  | cons c r ih =>
    have hc := h c (List.mem_cons_self _ _)
    have ihr := ih (fun c hc => h c (List.mem_cons_of_mem _ hc))
    cases q
    · simp only [scanBrackets, hc.1, if_false]
      exact ihr
    · simp only [scanBrackets, hc.1, hc.2, if_false]
      exact ihr

theorem id_free (id : Str) (hid : id.all isIdChar = true) : ∀ c ∈ id, c ≠ '<' ∧ c ≠ '>' := by
  intro c hc
  have := List.all_eq_true.1 hid c hc
  constructor
  · intro h; subst h; rw [isIdChar_lt] at this; cases this
  · intro h; subst h; rw [isIdChar_gt] at this; cases this

theorem cleanName_free (name : Str) (h : cleanName name = true) :
    ∀ c ∈ name, c ≠ '<' ∧ c ≠ '>' := by
  intro c hc
  have := List.all_eq_true.1 h c hc
  simp only [Bool.and_eq_true, bne_iff_ne, ne_eq] at this
  exact this.1

theorem scanBrackets_group (body rest : Str) (h : ∀ c ∈ body, c ≠ '<' ∧ c ≠ '>') :
    scanBrackets false ('<' :: (body ++ '>' :: rest)) = scanBrackets false rest := by
  rw [scanBrackets, if_pos rfl, scanBrackets_append, scanBrackets_free true body h]
  simp [scanBrackets]

theorem scanBrackets_render (segs : List Seg) (hwf : ∀ s ∈ segs, s.wf = true) :
    scanBrackets false (render segs) = some false := by
  induction segs with
  | nil => rfl
  | cons s rest ih =>
    have ihr := ih (fun s hs => hwf s (List.mem_cons_of_mem _ hs))
    have hs := hwf s (List.mem_cons_self _ _)
    cases s with
    | plain c =>
      have hc : c ≠ '<' := by simpa [Seg.wf] using hs
      rw [render_plain, scanBrackets, if_neg hc]
      exact ihr
    | group body =>
      have hb : ∀ c ∈ body, c ≠ '<' ∧ c ≠ '>' := by
        simp only [Seg.wf, Bool.and_eq_true, List.all_eq_true, bne_iff_ne, ne_eq] at hs
        exact hs.1
      rw [render_group, scanBrackets_group body _ hb]
      exact ihr
    | mention id =>
      have hid : id.all isIdChar = true := by simpa [Seg.wf] using hs
      have hb : ∀ c ∈ '@' :: id, c ≠ '<' ∧ c ≠ '>' := by
        intro c hc
        rcases List.mem_cons.1 hc with hc | hc
        · subst hc; exact ⟨by decide, by decide⟩
        · exact id_free id hid c hc
      rw [render_mention]
      have := scanBrackets_group ('@' :: id) (render rest) hb
      simp only [List.cons_append] at this
      rw [this]
      exact ihr

/-- Inside a group, a text that scans well closes the group. -/
theorem scanBrackets_inside (r : Str) (h : scanBrackets true r = some false) :
    ∃ body rest, r = body ++ '>' :: rest ∧ (∀ c ∈ body, c ≠ '<' ∧ c ≠ '>') ∧
      scanBrackets false rest = some false := by
  induction r with
  | nil => simp [scanBrackets] at h
  | cons c r ih =>
    rw [scanBrackets] at h
    by_cases h1 : c = '<'
    · simp [h1] at h
    · rw [if_neg h1] at h
      by_cases h2 : c = '>'
      · rw [if_pos h2] at h
        exact ⟨[], r, by simp [h2], by simp, h⟩
      · rw [if_neg h2] at h
        obtain ⟨body, rest, hr, hb, hrest⟩ := ih h
        refine ⟨c :: body, rest, by simp [hr], ?_, hrest⟩
        intro d hd
        rcases List.mem_cons.1 hd with hd | hd
        · subst hd; exact ⟨h1, h2⟩
        · exact hb d hd

theorem group_or_mention (body : Str) (hb : ∀ c ∈ body, c ≠ '<' ∧ c ≠ '>') :
    ∃ s : Seg, s.wf = true ∧ s.render = '<' :: (body ++ ['>']) := by
  by_cases hm : isMentionBody body = true
  · cases body with
    | nil => simp [isMentionBody] at hm
    | cons c id =>
      simp only [isMentionBody, Bool.and_eq_true, beq_iff_eq] at hm
      refine ⟨Seg.mention id, by simpa [Seg.wf] using hm.2, ?_⟩
      simp [Seg.render, hm.1]
  · refine ⟨Seg.group body, ?_, rfl⟩
    simp only [Seg.wf, Bool.and_eq_true, List.all_eq_true, bne_iff_ne, ne_eq,
      Bool.not_eq_true', Bool.not_eq_true] at hm ⊢
    exact ⟨hb, hm⟩

theorem render_cons (s : Seg) (rest : List Seg) : render (s :: rest) = s.render ++ render rest := by
  simp [render]

/-- A text whose brackets do not nest and are closed is a segmented text. -/
theorem segments_of_scan (n : Nat) (t : Str) (hn : t.length ≤ n)
    (h : scanBrackets false t = some false) :
    ∃ segs : List Seg, (∀ s ∈ segs, s.wf = true) ∧ render segs = t := by
  induction n generalizing t with
  | zero =>
    have : t = [] := List.length_eq_zero.1 (Nat.le_zero.1 hn)
    subst this
    exact ⟨[], by simp, rfl⟩
  | succ n ih =>
    cases t with
    | nil => exact ⟨[], by simp, rfl⟩
    | cons c r =>
      rw [scanBrackets] at h
      by_cases hc : c = '<'
      · rw [if_pos hc] at h
        obtain ⟨body, rest, hr, hb, hrest⟩ := scanBrackets_inside r h
        have hlen : rest.length ≤ n := by
          have : r.length ≤ n := by simpa using hn
          rw [hr] at this
          simp only [List.length_append, List.length_cons] at this
          omega
        obtain ⟨segs, hwf, hrender⟩ := ih rest hlen hrest
        obtain ⟨s, hs, hsr⟩ := group_or_mention body hb
        refine ⟨s :: segs, ?_, ?_⟩
        · intro x hx
          rcases List.mem_cons.1 hx with hx | hx
          · subst hx; exact hs
          · exact hwf x hx
        · rw [render_cons, hsr, hrender, hc, hr]
          simp
      · rw [if_neg hc] at h
        have hlen : r.length ≤ n := by simpa using hn
        obtain ⟨segs, hwf, hrender⟩ := ih r hlen h
        refine ⟨Seg.plain c :: segs, ?_, ?_⟩
        · intro x hx
          rcases List.mem_cons.1 hx with hx | hx
          · subst hx; simpa [Seg.wf] using hc
          · exact hwf x hx
        · rw [render_plain, hrender]

theorem splitOnFirst_spec (pat s before after : Str)
    (h : splitOnFirst pat s = some (before, after)) : s = before ++ pat ++ after := by
  induction s generalizing before with
  | nil =>
    rw [splitOnFirst] at h
    by_cases hp : pat = []
    · simp only [hp, if_true, Option.some.injEq, Prod.mk.injEq] at h
      simp [hp, ← h.1, ← h.2]
    · simp [hp] at h
  | cons c cs ih =>
    rw [splitOnFirst] at h
    by_cases hs : startsWith pat (c :: cs) = true
    · rw [if_pos hs] at h
      simp only [Option.some.injEq, Prod.mk.injEq] at h
      obtain ⟨r, hr⟩ := (startsWith_iff _ _).1 hs
      rw [← h.1, ← h.2, hr]
      simp
    · rw [if_neg hs] at h
      cases hrec : splitOnFirst pat cs with
      | none => simp [hrec] at h
      | some p =>
        obtain ⟨b, a⟩ := p
        simp only [hrec, Option.map_some', Option.some.injEq, Prod.mk.injEq] at h
        obtain ⟨h1, h2⟩ := h
        subst h1 h2
        rw [ih b hrec]
        simp

/-- Replacing a text without brackets by a name without brackets keeps the bracket structure. -/
theorem scanBrackets_jsReplace (t id name : Str)
    (hid : ∀ c ∈ id, c ≠ '<' ∧ c ≠ '>') (hname : cleanName name = true)
    (h : scanBrackets false t = some false) :
    scanBrackets false (jsReplace t id name) = some false := by
  cases hs : splitOnFirst id t with
  | none => simpa [jsReplace, hs] using h
  | some p =>
    obtain ⟨before, after⟩ := p
    rw [jsReplace_of_split t id name before after hs (cleanName_noDollar name hname)]
    have ht := splitOnFirst_spec id t before after hs
    rw [ht, List.append_assoc, scanBrackets_append] at h
    rw [List.append_assoc, scanBrackets_append]
    cases hq : scanBrackets false before with
    | none => simp [hq] at h
    | some q =>
      simp only [hq, Option.some_bind] at h ⊢
      rw [scanBrackets_append, scanBrackets_free q id hid] at h
      rw [scanBrackets_append, scanBrackets_free q name (cleanName_free name hname)]
      exact h

theorem preprocess_users (web : Web) (segs : List Seg)
    (hwf : ∀ s ∈ segs, s.wf = true) (hres : Resolves web segs) :
    ∃ users, promiseAll ((tokens 1 segs).map (fun t => getUser web t.2)) = some users ∧
      ∀ u ∈ users, (∀ c ∈ u.id, c ≠ '<' ∧ c ≠ '>') ∧ cleanName (getNameFromUser u) = true := by
  have hall : ∀ t ∈ tokens 1 segs, ∃ u, getUser web t.2 = some u ∧
      (∀ c ∈ u.id, c ≠ '<' ∧ c ≠ '>') ∧ cleanName (getNameFromUser u) = true := by
    intro t ht
    obtain ⟨id, rfl, hid, hn, hmem⟩ := tokens_spec 1 segs hwf t ht
    have hne : id ≠ [] := by
      intro h
      subst h
      simp at hn
    obtain ⟨u, hu, huid, hclean⟩ := hres id hmem hne
    exact ⟨u, hu, by rw [huid]; exact id_free id hid, hclean⟩
  obtain ⟨us, hus, hmap⟩ := promiseAll_of_forall (fun t : Str × Str => getUser web t.2)
    (tokens 1 segs) (fun t ht => ⟨_, (hall t ht).choose_spec.1⟩)
  refine ⟨us, hus, ?_⟩
  intro u hu
  have : some u ∈ (tokens 1 segs).map (fun t => getUser web t.2) := by
    rw [hmap]; exact List.mem_map_of_mem _ hu
  obtain ⟨t, ht, hf⟩ := List.mem_map.1 this
  obtain ⟨u', hu', h1, h2⟩ := hall t ht
  rw [hf] at hu'
  cases hu'
  exact ⟨h1, h2⟩

theorem scanBrackets_foldl (users : List User) (t : Str)
    (hu : ∀ u ∈ users, (∀ c ∈ u.id, c ≠ '<' ∧ c ≠ '>') ∧ cleanName (getNameFromUser u) = true)
    (h : scanBrackets false t = some false) :
    scanBrackets false
      (users.foldl (fun text user => jsReplace text user.id (getNameFromUser user)) t) =
        some false := by
  induction users generalizing t with
  | nil => exact h
  | cons u rest ih =>
    rw [List.foldl_cons]
    have h0 := hu u (List.mem_cons_self _ _)
    exact ih _ (fun u hu' => hu u (List.mem_cons_of_mem _ hu'))
      (scanBrackets_jsReplace t u.id _ h0.1 h0.2 h)

/-- On a segmented text whose ids resolve, `preprocessUserMentions` resolves with a
segmented text. -/
theorem preprocess_segments (web : Web) (segs : List Seg)
    (hwf : ∀ s ∈ segs, s.wf = true) (hres : Resolves web segs) :
    ∃ segs1 : List Seg, (∀ s ∈ segs1, s.wf = true) ∧
      preprocessUserMentions web (render segs) = some (render segs1) := by
  rw [preprocessUserMentions_eq]
  have hm : matchAll 1 (render segs) = tokens 1 segs := matchAllFrom_render 1 segs hwf
  rw [hm, List.map_map]
  have hcongr : (tokens 1 segs).map ((fun raw_id =>
      match regexExec 1 raw_id with
      | some result => getUser web result.2
      | none => none) ∘ Prod.fst) = (tokens 1 segs).map (fun t => getUser web t.2) := by
    apply List.map_congr_left
    intro t ht
    obtain ⟨id, rfl, hid, hn, _⟩ := tokens_spec 1 segs hwf t ht
    simp only [Function.comp, regexExec_token 1 id hid hn]
  rw [hcongr]
  obtain ⟨users, h1, h2⟩ := preprocess_users web segs hwf hres
  rw [h1, Option.map_some']
  have hscan := scanBrackets_foldl users (render segs) h2 (scanBrackets_render segs hwf)
  obtain ⟨segs1, hwf1, hr1⟩ := segments_of_scan _ _ (Nat.le_refl _) hscan
  exact ⟨segs1, hwf1, by rw [hr1]⟩

/-- C9, as stated, fails: `removeMentionTag` maps `<@<@>>` to `<@>` and `<@>` to the empty
text, so neither it nor `normalize` (no id is mentioned) is idempotent on `<@<@>>`.
Three more failures, on texts without nested brackets: a display name with brackets
(`hi <@U1>` gives `hi <@XYZ>`, which gives `hi <@q>`), an id that resolves to a user with
another id (`<@><@U2>>` gives `<@NU2>`, which gives `<@z>`), and a display name that is a
replacement pattern (`<@U3>` gives `<@>`, which gives the empty text). -/
theorem C9_counterexample :
    removeMentionTag (removeMentionTag "<@<@>>".toList) ≠ removeMentionTag "<@<@>>".toList ∧
    normalize exLocalWeb "<@<@>>".toList = some "<@>".toList ∧
    normalize exLocalWeb "<@>".toList = some [] ∧
    normalize exOddWeb "hi <@U1>".toList = some "hi <@XYZ>".toList ∧
    normalize exOddWeb "hi <@XYZ>".toList = some "hi <@q>".toList ∧
    normalize exOddWeb "<@><@U2>>".toList = some "<@NU2>".toList ∧
    normalize exOddWeb "<@NU2>".toList = some "<@z>".toList ∧
    normalize exOddWeb "<@U3>".toList = some "<@>".toList ∧
    normalize exOddWeb "<@>".toList = some [] := by
  decide

/-- C9 (amended): on every text made of characters other than `<`, bracket groups without
nested brackets and mention tokens, with an identity cache that resolves the ids mentioned
(to users carrying that id, whose display names hold no `<`, `>` or `$`), `normalize` is
idempotent: it resolves with a text that it maps to itself; and
`removeMentionTag (removeMentionTag t) = removeMentionTag t` for every such text `t`. -/
theorem C9_normalize_idempotent (web : Web) (segs : List Seg)
    (hwf : ∀ s ∈ segs, s.wf = true) (hres : Resolves web segs) :
    (∃ t, normalize web (render segs) = some t ∧ normalize web t = some t) ∧
    removeMentionTag (removeMentionTag (render segs)) = removeMentionTag (render segs) := by
  obtain ⟨segs1, hwf1, hp⟩ := preprocess_segments web segs hwf hres
  refine ⟨⟨stripRender segs1, ?_, ?_⟩, removeMentionTag_idem_render segs hwf⟩
  · unfold normalize
    rw [hp, Option.map_some', removeMentionTag_render segs1 hwf1]
  · unfold normalize
    rw [preprocessUserMentions_of_noMatch web _ (matchAll_stripRender 1 segs1 hwf1),
      Option.map_some', removeMentionTag_of_noMatch _ (matchAll_stripRender 0 segs1 hwf1)]

theorem exEarlier_resolves : Resolves exLocalWeb exEarlier := by
  intro id hid _
  have : id = "U123".toList := by
    simp only [exEarlier, List.mem_cons, List.mem_singleton, reduceCtorEq, false_or,
      Seg.mention.injEq, List.not_mem_nil, or_false] at hid
    exact hid
  subst this
  exact ⟨exAlice, by decide, by decide, by decide⟩

theorem C9_normalize_idempotent_witness :
    render exEarlier = "U123 <@U123>".toList ∧
    normalize exLocalWeb "U123 <@U123>".toList = some "Alice U123".toList ∧
    normalize exLocalWeb "Alice U123".toList = some "Alice U123".toList := by
  obtain ⟨t, h1, h2⟩ :=
    (C9_normalize_idempotent exLocalWeb exEarlier (by decide) exEarlier_resolves).1
  have h3 : normalize exLocalWeb (render exEarlier) = some "Alice U123".toList := by decide
  rw [h3] at h1
  cases h1
  exact ⟨by decide, by decide, h2⟩

end SlackPortal
